import Mathlib

/-!
A verification development for the superglue step-execution engine:
the self-healing call executor (`executeApiCall`, `isSelfHealingEnabled`,
`callResolver`) and the workflow execution strategies
(`directStrategy`, `loopStrategy`, `selectStrategy`).

The TypeScript sources are shallowly embedded as executable Lean
functions.  External collaborators (transport caller, config
synthesizer, response validator, transform facade, datastore) are
modelled as oracle functions supplied through environment records, so
all theorems quantify over every possible collaborator behaviour.
Thrown JavaScript errors are modelled as `Except.error` carrying the
error's string rendering.
-/

namespace Superglue

/-! ### Enumerations and option records (packages/client types) -/

inductive SelfHealingMode where
  | DISABLED
  | ENABLED
  | REQUEST_ONLY
deriving DecidableEq, Repr

inductive CacheMode where
  | DISABLED
  | ENABLED
  | READONLY
  | WRITEONLY
deriving DecidableEq, Repr

/-- `RequestOptions`: optional fields model JS `undefined` as `none`. -/
structure RequestOptions where
  selfHealing : Option SelfHealingMode := none
  cacheMode : Option CacheMode := none
  retries : Option Nat := none
  webhookUrl : Option String := none
  testMode : Option Bool := none
deriving DecidableEq, Repr

/-! ### A small JSON value type

JavaScript values flowing through the engine are modelled by `Json`.
`undefined` is folded into `null`; numbers are modelled as integers
(no claim depends on float behaviour). -/

inductive Json where
  | null
  | bool (b : Bool)
  | num (n : Int)
  | str (s : String)
  | arr (elems : List Json)
  | obj (fields : List (String × Json))

mutual

def Json.beq : Json → Json → Bool
  | .null, .null => true
  | .bool a, .bool b => a == b
  | .num a, .num b => a == b
  | .str a, .str b => a == b
  | .arr a, .arr b => Json.beqElems a b
  | .obj a, .obj b => Json.beqFields a b
  | _, _ => false

def Json.beqElems : List Json → List Json → Bool
  | [], [] => true
  | x :: xs, y :: ys => Json.beq x y && Json.beqElems xs ys
  | _, _ => false

def Json.beqFields : List (String × Json) → List (String × Json) → Bool
  | [], [] => true
  | (k, v) :: xs, (k', v') :: ys => k == k' && Json.beq v v' && Json.beqFields xs ys
  | _, _ => false

end

mutual

theorem Json.beq_iff : ∀ a b : Json, Json.beq a b = true ↔ a = b
  | .null, b => by cases b <;> simp [Json.beq]
  | .bool x, b => by cases b <;> simp [Json.beq]
  | .num x, b => by cases b <;> simp [Json.beq]
  | .str x, b => by cases b <;> simp [Json.beq]
  | .arr xs, b => by
      cases b <;> simp [Json.beq]
      exact Json.beqElems_iff xs _
  | .obj fs, b => by
      cases b <;> simp [Json.beq]
      exact Json.beqFields_iff fs _

theorem Json.beqElems_iff : ∀ xs ys : List Json, Json.beqElems xs ys = true ↔ xs = ys
  | [], ys => by cases ys <;> simp [Json.beqElems]
  | x :: xs, ys => by
      cases ys with
      | nil => simp [Json.beqElems]
      | cons y ys =>
        simp only [Json.beqElems, Bool.and_eq_true, List.cons.injEq]
        rw [Json.beq_iff, Json.beqElems_iff]

theorem Json.beqFields_iff :
    ∀ xs ys : List (String × Json), Json.beqFields xs ys = true ↔ xs = ys
  | [], ys => by cases ys <;> simp [Json.beqFields]
  | (k, v) :: xs, ys => by
      cases ys with
      | nil => simp [Json.beqFields]
      | cons y ys =>
        obtain ⟨k', v'⟩ := y
        simp only [Json.beqFields, Bool.and_eq_true, List.cons.injEq, Prod.mk.injEq,
          beq_iff_eq]
        rw [Json.beq_iff, Json.beqFields_iff]

end

instance : DecidableEq Json :=
  fun a b => decidable_of_iff _ (Json.beq_iff a b)

mutual

/-- `JSON.stringify` (escaping of special characters inside strings is
not modelled; no claim depends on it). -/
def Json.stringify : Json → String
  | .null => "null"
  | .bool true => "true"
  | .bool false => "false"
  | .num n => toString n
  | .str s => "\x22" ++ s ++ "\x22"
  | .arr xs => "[" ++ String.intercalate "," (Json.stringifyElems xs) ++ "]"
  | .obj fs => "\x7b" ++ String.intercalate "," (Json.stringifyFields fs) ++ "\x7d"

def Json.stringifyElems : List Json → List String
  | [] => []
  | x :: xs => Json.stringify x :: Json.stringifyElems xs

def Json.stringifyFields : List (String × Json) → List String
  | [] => []
  | f :: fs => ("\x22" ++ f.1 ++ "\x22:" ++ Json.stringify f.2) :: Json.stringifyFields fs

end

/-- JavaScript falsiness of a value (`null`/`undefined`, `false`, `0`, `""`). -/
def Json.isFalsy : Json → Bool
  | .null => true
  | .bool b => !b
  | .num n => n == 0
  | .str s => s == ""
  | .arr _ => false
  | .obj _ => false

/-- `Array.isArray`. -/
def Json.isArr : Json → Bool
  | .arr _ => true
  | _ => false

/-- JavaScript truthiness of an optional string field
(`undefined` and `""` are falsy). -/
def jsTruthyOptStr : Option String → Bool
  | none => false
  | some s => s ≠ ""

/-- JavaScript `String.prototype.slice(0, n)`, modelled on characters. -/
def jsSlice (s : String) (n : Nat) : String :=
  ⟨s.data.take n⟩

/-- JavaScript `String.prototype.startsWith`. -/
def jsStartsWith (s pat : String) : Bool :=
  pat.data.isPrefixOf s.data

/-! ### Credential masking

`maskCredentials` lives in `packages/core/utils/tools.ts`, which is not
included under `src/`.

Modelled from the spec: "Masked error: an error string with all known
credential values replaced before logging/persistence/return" — every
occurrence of each credential value is replaced, left to right per
value, by a same-length run of the mask character `*`. -/

/-- One global replacement pass (the semantics of
`String.prototype.replace` with a global regex): scan left to right,
replacing each non-overlapping occurrence of `pat` by `rep`.  `fuel`
bounds the recursion; `replaceAll` supplies `s.length`, which always
suffices. -/
def replaceAllF (pat rep : List Char) : Nat → List Char → List Char
  | _, [] => []
  | 0, l => l
  | fuel + 1, c :: rest =>
    if pat ≠ [] ∧ pat.isPrefixOf (c :: rest) then
      rep ++ replaceAllF pat rep fuel ((c :: rest).drop pat.length)
    else
      c :: replaceAllF pat rep fuel rest

def replaceAll (pat rep s : List Char) : List Char :=
  replaceAllF pat rep s.length s

def maskFold (credentials : List (String × String)) (l : List Char) : List Char :=
  credentials.foldl
    (fun acc kv => replaceAll kv.2.data (List.replicate kv.2.data.length '*') acc) l

/-- Modelled from the spec: replace every occurrence of every credential
value (the map's values) by mask characters. -/
def maskCredentials (msg : String) (credentials : List (String × String)) : String :=
  ⟨maskFold credentials msg.data⟩

/-! ### Remaining data model (client/shared types used by the executor) -/

structure ApiConfig where
  id : String := ""
  urlHost : String := ""
  instruction : String := ""
  responseSchema : Option Json := none
  responseMapping : Option String := none
deriving DecidableEq

structure Integration where
  id : String := ""
  documentationPending : Bool := false
  documentation : String := ""
deriving DecidableEq

/-- One chat message of the conversation transcript exchanged with the
config synthesizer (`OpenAI.Chat.ChatCompletionMessageParam`). -/
structure Msg where
  role : String
  content : String
deriving DecidableEq

/-! ### Self-Healing Call Executor (`executeApiCall`, src/unnamed/part_001)

The collaborators `generateApiConfig`, `callEndpoint` and
`evaluateResponse` (from `utils/api.ts`, not under `src/`) are oracles
indexed by the attempt counter; the constant `payload`, `credentials`
and `options` arguments the source forwards to them are folded into the
oracle.  A thrown error is `Except.error` carrying `error.message`. -/

structure ExecEnv where
  /-- `generateApiConfig(endpoint, documentationString, payload, credentials,
  retryCount, messages)` → `{config, messages}`. -/
  generateApiConfig : Nat → String → ApiConfig → List Msg → ApiConfig × List Msg
  /-- `callEndpoint(endpoint, payload, credentials, options)`; the oracle
  returns the response's `data` field (`Json.null` when absent), or the
  message of a thrown transport error. -/
  callEndpoint : Nat → ApiConfig → Except String Json
  /-- `evaluateResponse(data, responseSchema, instruction)` →
  `(success, shortReason)`. -/
  evaluateResponse : Nat → Json → Bool × String

/-- Observable events of one `executeApiCall` run, in program order. -/
inductive Ev where
  | genCall (attempt : Nat) (documentation : String)
  | transportCall (attempt : Nat) (endpoint : ApiConfig)
  | transportOk (attempt : Nat) (data : Json)
  | validatorCall (attempt : Nat)
  | fail (attempt : Nat) (raw : String)
  | errAppend (attempt : Nat) (content : String)
  | guideAppend (attempt : Nat)
deriving DecidableEq

/-- Mutable state threaded through the retry loop: the working config,
the conversation transcript, and the last masked error. -/
structure LoopState where
  endpoint : ApiConfig
  messages : List Msg
  lastError : Option String
deriving DecidableEq

def isSelfHealingEnabled (options : RequestOptions) : Bool :=
  match options.selfHealing with
  | none => true
  | some SelfHealingMode.ENABLED => true
  | some SelfHealingMode.REQUEST_ONLY => true
  | some _ => false

/-- The documentation-string resolution at the top of `executeApiCall`
(lines 145-152).  When no integration is supplied and self-healing is
disabled, none of the first two guards fire and the source reads
`integration.documentation` on `undefined`, throwing a `TypeError`
before the retry loop. -/
def resolveDocumentation (integration : Option Integration) (isSelfHealing : Bool) :
    Except String String :=
  match integration with
  | none =>
      if isSelfHealing then .ok ""
      else .error "TypeError: Cannot read properties of undefined (reading \x27documentation\x27)"
  | some i =>
      if i.documentationPending then .ok ""
      else if i.documentation ≠ "" then .ok i.documentation
      else .ok ""

def errMsgHead : String := "There was an error with the configuration, please fix: "

def guideCheckHead : String := "Please find the JSONata guide here:"

/-- Modelled from the spec: the JSONata mapping-language guide
(`PROMPT_MAPPING` from `llm/prompts.ts`, not under `src/`); its content
is irrelevant to every claim. -/
def PROMPT_MAPPING : String := "<JSONata mapping guide>"

/-- The outcome of one iteration of the retry loop's body. -/
inductive AttemptOut where
  | ok (data : Json) (endpoint : ApiConfig) (messages : List Msg) (trace : List Ev)
  | fail (st : LoopState) (trace : List Ev)

/-- The `catch` block of the retry loop's body (lines 186-199): mask and
truncate the error for `lastError`; when `retryCount > 0` append the
*raw* (2000-truncated) error to the transcript, plus the JSONata guide
once per call when applicable. -/
def catchAttempt (creds : List (String × String)) (retryCount : Nat)
    (endpoint : ApiConfig) (messages : List Msg) (raw : String) (tr : List Ev) : AttemptOut :=
  let lastError := jsSlice (maskCredentials raw creds) 1000
  if retryCount = 0 then
    .fail ⟨endpoint, messages, some lastError⟩ (tr ++ [.fail 0 raw])
  else
    let appended : Msg := ⟨"user", errMsgHead ++ jsSlice raw 2000⟩
    let messages1 := messages ++ [appended]
    let tr1 := tr ++ [.fail retryCount raw, .errAppend retryCount appended.content]
    if jsStartsWith raw "JSONata" ∧ ¬ messages1.any (fun m => jsStartsWith m.content guideCheckHead) then
      .fail ⟨endpoint, messages1 ++ [⟨"user", guideCheckHead ++ " " ++ PROMPT_MAPPING⟩], some lastError⟩
        (tr1 ++ [.guideAppend retryCount])
    else
      .fail ⟨endpoint, messages1, some lastError⟩ tr1

/-- The transport call, empty-body check and validation of one loop
body iteration (lines 162-184), run with the possibly regenerated
`endpoint`/`messages`. -/
def attemptCore (env : ExecEnv) (creds : List (String × String)) (isSH : Bool)
    (retryCount : Nat) (endpoint : ApiConfig) (messages : List Msg) (tr0 : List Ev) :
    AttemptOut :=
  let tr1 := tr0 ++ [Ev.transportCall retryCount endpoint]
  match env.callEndpoint retryCount endpoint with
  | .error e => catchAttempt creds retryCount endpoint messages e tr1
  | .ok data =>
    let tr2 := tr1 ++ [Ev.transportOk retryCount data]
    if data.isFalsy then
      catchAttempt creds retryCount endpoint messages
        "No data returned from API. This could be due to a configuration error." tr2
    else if 0 < retryCount ∧ isSH then
      let tr3 := tr2 ++ [Ev.validatorCall retryCount]
      let v := env.evaluateResponse retryCount data
      if v.1 then .ok data endpoint messages tr3
      else
        catchAttempt creds retryCount endpoint messages
          (v.2 ++ " " ++ jsSlice (Json.stringify data) 1000) tr3
    else
      .ok data endpoint messages tr2

/-- One iteration of the retry loop's body (the `try` block,
lines 154-185): on `retryCount > 0` with self-healing enabled, the
config and transcript are first replaced by the synthesizer's output. -/
def attemptOnce (env : ExecEnv) (creds : List (String × String)) (isSH : Bool)
    (doc : String) (retryCount : Nat) (st : LoopState) : AttemptOut :=
  if 0 < retryCount ∧ isSH then
    let g := env.generateApiConfig retryCount doc st.endpoint st.messages
    attemptCore env creds isSH retryCount g.1 g.2 [Ev.genCall retryCount doc]
  else
    attemptCore env creds isSH retryCount st.endpoint st.messages []

/-- Partial result of the retry loop: on failure, the final value of the
attempt counter and of `lastError`. -/
structure ExecPartRes where
  outcome : Except (Nat × Option String) (Json × ApiConfig)
  messages : List Msg
  trace : List Ev

/-- The `do … while (retryCount < retries)` loop (lines 153-201).  The
body always runs at least once; after it, with `retryCount` already
incremented, the loop continues while `retryCount < retries`.  `fuel`
is an upper bound on the number of *further* iterations; callers pass
`retries`, which always suffices, so the `0` branch (which replicates
loop exit) is unreachable. -/
def execGo (env : ExecEnv) (creds : List (String × String)) (isSH : Bool) (doc : String)
    (retries : Nat) : Nat → Nat → LoopState → ExecPartRes
  | fuel, retryCount, st =>
    match attemptOnce env creds isSH doc retryCount st with
    | .ok data endpoint messages tr => ⟨.ok (data, endpoint), messages, tr⟩
    | .fail st' tr =>
      if retryCount + 1 < retries then
        match fuel with
        | 0 => ⟨.error (retryCount + 1, st'.lastError), st'.messages, tr⟩
        | fuel + 1 =>
          let r := execGo env creds isSH doc retries fuel (retryCount + 1) st'
          ⟨r.outcome, r.messages, tr ++ r.trace⟩
      else
        ⟨.error (retryCount + 1, st'.lastError), st'.messages, tr⟩

inductive ExecOutcome where
  | ok (data : Json) (endpoint : ApiConfig)
  | err (msg : String)
deriving DecidableEq

/-- The full observable result of `executeApiCall`: its outcome, the
final conversation transcript, and the event trace. -/
structure ExecCallOut where
  outcome : ExecOutcome
  messages : List Msg
  trace : List Ev
deriving DecidableEq

def failMsgHead (retryCount : Nat) : String :=
  "API call failed after " ++ toString retryCount ++ " retries. Last error: "

/-- `executeApiCall(endpoint, payload, credentials, options, metadata,
integration)` (lines 127-211). -/
def executeApiCall (env : ExecEnv) (endpoint : ApiConfig) (creds : List (String × String))
    (options : RequestOptions) (integration : Option Integration) : ExecCallOut :=
  let isSH := isSelfHealingEnabled options
  match resolveDocumentation integration isSH with
  | .error e => ⟨.err e, [], []⟩
  | .ok doc =>
    let retries := options.retries.getD 8
    let r := execGo env creds isSH doc retries retries 0 ⟨endpoint, [], none⟩
    match r.outcome with
    | .ok (data, ep) => ⟨.ok data ep, r.messages, r.trace⟩
    | .error (rc, lastErr) =>
      ⟨.err (failMsgHead rc ++ lastErr.getD "null"), r.messages, r.trace⟩

/-! ### Execution strategies (`packages/core/workflow/workflow-strategies.ts`)

The strategies call a *different* `executeApiCall` (from
`core/utils/api.ts`, not under `src/`), `applyJsonata`,
`transformAndValidateSchema`, `generateTransformCode` and
`flattenObject`, none of which are under `src/`; they are oracles (or,
for `flattenObject`, modelled from the spec).  Call-site indices let an
oracle behave differently per call. -/

structure ExecutionStep where
  id : String := ""
  apiConfig : ApiConfig := {}
  executionMode : String := "DIRECT"
  loopSelector : Option String := none
  loopMaxIters : Option Nat := none
  responseMapping : Option String := none
deriving DecidableEq

structure WorkflowStepResult where
  stepId : String
  success : Bool
  rawData : Option Json := none
  transformedData : Option Json := none
  config : ApiConfig
  error : Option String := none
deriving DecidableEq

/-- `selectStrategy`: `executionMode == "LOOP"` → loop, anything else →
direct. -/
inductive StrategyKind where
  | direct
  | loop
deriving DecidableEq

def selectStrategy (step : ExecutionStep) : StrategyKind :=
  if step.executionMode = "LOOP" then .loop else .direct

structure StratEnv where
  /-- `executeApiCall({endpoint, payload, credentials, options, metadata,
  integrationManager})` → `{data, endpoint}`; indexed by the loop
  iteration (the direct strategy uses index 0). -/
  executeApiCall : Nat → ApiConfig → Json → RequestOptions → Except String (Json × ApiConfig)
  /-- `applyJsonata(data, expression)`. -/
  applyJsonata : Json → Option String → Except String Json
  /-- `transformAndValidateSchema(payload, selector, null)` →
  `{success, data}`; indexed by the extraction attempt (0 = first,
  1 = post-regeneration retry). -/
  transformAndValidateSchema : Nat → Json → String → Bool × Json
  /-- `generateTransformCode(arraySchema, payload, instruction, metadata)`
  → `{mappingCode}` (the fixed `arraySchema` argument is folded in). -/
  generateTransformCode : Json → String → Except String (Option String)

/-- Observable events of one strategy execution, in program order. -/
inductive StratEv where
  | extractCall (callIdx : Nat) (selector : String)
  | regenCall (instruction : String)
  | execCall (iter : Nat) (endpoint : ApiConfig)
  | execOk (iter : Nat) (endpoint : ApiConfig)
deriving DecidableEq

def jsTypeof : Json → String
  | .null => "object"
  | .bool _ => "boolean"
  | .num _ => "number"
  | .str _ => "string"
  | .arr _ => "object"
  | .obj _ => "object"

/-- `Object.keys(payload)` paired with the corresponding values: fields
of an object, index keys of an array or string, empty otherwise. -/
def objectEntries : Json → List (String × Json)
  | .obj fs => fs
  | .arr xs => xs.enum.map (fun p => (toString p.1, p.2))
  | .str s => s.data.enum.map (fun p => (toString p.1, Json.str ⟨[p.2]⟩))
  | _ => []

def summarizeEntry (kv : String × Json) : String :=
  "- " ++ kv.1 ++ ": " ++
    (match kv.2 with
     | .arr xs => "array[" ++ toString xs.length ++ "]"
     | v => jsTypeof v)

/-- The selector-regeneration prompt built in `loopStrategy` (lines
106-121). -/
def regenInstruction (step : ExecutionStep) (payload : Json) : String :=
  "Create a JavaScript function that extracts the array of items to loop over for step: "
    ++ step.id ++ ". \n          \nStep instruction: " ++ step.apiConfig.instruction
    ++ "\n\nThe function should:\n1. Extract an array of ACTUAL DATA ITEMS (not metadata or property definitions)\n2. Apply any filtering based on the step\x27s instruction\n\nAvailable data in sourceData:\n"
    ++ String.intercalate "\n" ((objectEntries payload).map summarizeEntry)
    ++ "\n\nThe function should return an array of items that this step will iterate over."

/-- Modelled from the spec: the system default loop iteration cap
(`server_defaults.DEFAULT_LOOP_MAX_ITERS`, not under `src/`). -/
def DEFAULT_LOOP_MAX_ITERS : Nat := 1000

/-- `step.loopMaxIters || server_defaults.DEFAULT_LOOP_MAX_ITERS`
(`0` is falsy in JS). -/
def loopCap (step : ExecutionStep) : Nat :=
  match step.loopMaxIters with
  | some n => if n = 0 then DEFAULT_LOOP_MAX_ITERS else n
  | none => DEFAULT_LOOP_MAX_ITERS

/-- JS object-literal semantics for duplicate keys: a later entry
overwrites the value of an earlier one in place. -/
def setField : List (String × Json) → String → Json → List (String × Json)
  | [], k, v => [(k, v)]
  | (k', v') :: rest, k, v =>
    if k' = k then (k', v) :: rest else (k', v') :: setField rest k v

def objFromEntries (entries : List (String × Json)) : List (String × Json) :=
  entries.foldl (fun acc kv => setField acc kv.1 kv.2) []

/-- Object-spread (`...v`) contribution of a value inside an object
literal: an object's fields, an array's or string's index keys, nothing
for other primitives. -/
def Json.spreadEntries : Json → List (String × Json)
  | .obj fs => fs
  | .arr xs => xs.enum.map (fun p => (toString p.1, p.2))
  | .str s => s.data.enum.map (fun p => (toString p.1, Json.str ⟨[p.2]⟩))
  | _ => []

mutual

/-- Modelled from the spec: `flattenObject` (`utils/tools.ts`, not under
`src/`) produces a flattened, namespaced copy of a value — nested object
fields become dotted keys under the given key prefix. -/
def flattenObject : Json → String → List (String × Json)
  | .obj fs, p => flattenFields fs p
  | v, p => [(p, v)]

def flattenFields : List (String × Json) → String → List (String × Json)
  | [], _ => []
  | (k, v) :: fs, p => flattenObject v (p ++ "." ++ k) ++ flattenFields fs p

end

/-- The iteration payload (lines 144-148): shallow-merge of the outer
payload, the flattened current item, and the item under `currentItem`. -/
def mkLoopPayload (payload currentItem : Json) : Json :=
  Json.obj (objFromEntries
    (payload.spreadEntries ++ flattenObject currentItem "currentItem"
      ++ [("currentItem", currentItem)]))

/-- Raw data of one successful iteration (line 171):
`{currentItem, ...(typeof data === 'object' ? data : {data})}` —
note `typeof null` and `typeof array` are both `'object'`. -/
def rawDataEntries : Json → List (String × Json)
  | .obj fs => fs
  | .arr xs => xs.enum.map (fun p => (toString p.1, p.2))
  | .null => []
  | other => [("data", other)]

/-- Evaluation of the loop selector (lines 97-100 and 128-131): on
evaluation failure or a non-array result the item list is empty. -/
def extractItems (env : StratEnv) (callIdx : Nat) (payload : Json) (selector : String) :
    List Json :=
  let r := env.transformAndValidateSchema callIdx payload selector
  if r.1 then
    match r.2 with
    | .arr xs => xs
    | _ => []
  else []

/-- `loopItems[i] || \"\"` (line 141): a falsy item is replaced by the
empty string. -/
def normItem (item : Json) : Json :=
  if item.isFalsy then Json.str "" else item

/-- The aggregated per-item failure message (line 186). -/
def mkIterError (i total : Nat) (currentItem : Json) (e : String) : String :=
  "Error processing item " ++ toString (i + 1) ++ "/" ++ toString total ++
    " \x27" ++ jsSlice (Json.stringify currentItem) 50 ++ "...\x27: " ++ e

/-- Loop iteration state: the (mutated-in-place) step, the learned
config, the collected per-iteration results, and the event trace. -/
structure LoopAcc where
  step : ExecutionStep
  successfulConfig : Option ApiConfig
  results : List WorkflowStepResult
  trace : List StratEv
deriving DecidableEq

/-- The `for` loop over the extracted items (lines 140-190).  A failure
of the executor or of mapping evaluation on an iteration aborts the
whole loop with the aggregated error (the inner `catch` rethrows). -/
def runIterations (env : StratEnv) (payload : Json) (options : RequestOptions)
    (total : Nat) : List Json → Nat → LoopAcc → Except (String × LoopAcc) LoopAcc
  | [], _, acc => .ok acc
  | item :: rest, i, acc =>
    let currentItem := normItem item
    let endpoint := acc.successfulConfig.getD acc.step.apiConfig
    let loopPayload := mkLoopPayload payload currentItem
    let tr := acc.trace ++ [.execCall i endpoint]
    match env.executeApiCall i endpoint loopPayload { options with testMode := some false } with
    | .error e => .error (mkIterError i total currentItem e, { acc with trace := tr })
    | .ok (data, ep) =>
      let tr1 := tr ++ [.execOk i ep]
      let raw := Json.obj (objFromEntries (("currentItem", currentItem) :: rawDataEntries data))
      match env.applyJsonata raw acc.step.responseMapping with
      | .error e => .error (mkIterError i total currentItem e, { acc with trace := tr1 })
      | .ok td =>
        let res : WorkflowStepResult :=
          { stepId := acc.step.id, success := true, rawData := some raw,
            transformedData := some td, config := ep }
        runIterations env payload options total rest (i + 1)
          { step := { acc.step with apiConfig := ep }, successfulConfig := some ep,
            results := acc.results ++ [res], trace := tr1 }

/-- The final iteration state, whether the loop completed or aborted. -/
def iterResultAcc : Except (String × LoopAcc) LoopAcc → LoopAcc
  | .ok acc => acc
  | .error (_, acc) => acc

/-- A strategy execution's full observable result: the returned
`WorkflowStepResult`, the caller's step object as it stands afterwards
(the loop strategy mutates it in place), and the event trace. -/
structure LoopOut where
  result : WorkflowStepResult
  finalStep : ExecutionStep
  trace : List StratEv
deriving DecidableEq

/-- Bounding, iteration and aggregation (lines 135-196), plus the outer
`catch` (lines 197-201) for failures raised during iteration.  On full
success `result.error` is the `join` of an always-empty filtered list,
i.e. `""` (entries would stringify as `[object Object]`). -/
def finishLoop (env : StratEnv) (origId : String) (step : ExecutionStep) (payload : Json)
    (options : RequestOptions) (items : List Json) (tr : List StratEv) : LoopOut :=
  let capped := items.take (loopCap step)
  match runIterations env payload options capped.length capped 0 ⟨step, none, [], tr⟩ with
  | .error (msg, acc) =>
    ⟨{ stepId := origId, success := false, config := acc.step.apiConfig,
       error := some msg }, acc.step, acc.trace⟩
  | .ok acc =>
    ⟨{ stepId := origId,
       success := acc.results.all (fun r => r.success),
       rawData := some (Json.arr (acc.results.map (fun r => r.rawData.getD Json.null))),
       transformedData :=
         some (Json.arr (acc.results.map (fun r => r.transformedData.getD Json.null))),
       config := acc.step.apiConfig,
       error := some (String.intercalate "\n"
         ((acc.results.filter (fun s => jsTruthyOptStr s.error)).map
           (fun _ => "[object Object]"))) },
     acc.step, acc.trace⟩

/-- `loopStrategy.execute` (lines 70-204). -/
def loopStrategyRun (env : StratEnv) (step0 : ExecutionStep) (payload : Json)
    (options : RequestOptions) : LoopOut :=
  if ¬ jsTruthyOptStr step0.loopSelector ∧ ¬ payload.isArr then
    ⟨{ stepId := step0.id, success := false, config := step0.apiConfig,
       error := some "loopSelector is required for LOOP execution mode" }, step0, []⟩
  else
    let step1 :=
      if jsTruthyOptStr step0.loopSelector then step0
      else { step0 with loopSelector := some "$" }
    let sel := step1.loopSelector.getD ""
    let items0 := extractItems env 0 payload sel
    let tr0 : List StratEv := [.extractCall 0 sel]
    if items0.isEmpty then
      let instr := regenInstruction step1 payload
      let tr1 := tr0 ++ [.regenCall instr]
      match env.generateTransformCode payload instr with
      | .error e =>
        ⟨{ stepId := step0.id, success := false, config := step1.apiConfig,
           error := some e }, step1, tr1⟩
      | .ok mc =>
        if jsTruthyOptStr mc then
          let step2 := { step1 with loopSelector := mc }
          let sel2 := mc.getD ""
          let items1 := extractItems env 1 payload sel2
          finishLoop env step0.id step2 payload options items1 (tr1 ++ [.extractCall 1 sel2])
        else
          finishLoop env step0.id step1 payload options [] tr1
    else
      finishLoop env step0.id step1 payload options items0 tr0

/-- `directStrategy.execute` (lines 28-68): one executor call, one
legacy mapping application; every failure is caught and converted. -/
def directStrategyRun (env : StratEnv) (step : ExecutionStep) (payload : Json)
    (options : RequestOptions) : WorkflowStepResult :=
  match env.executeApiCall 0 step.apiConfig payload options with
  | .error e =>
    { stepId := step.id, success := false, config := step.apiConfig,
      error := some ("Error in direct execution for step " ++ step.id ++ ": " ++ e) }
  | .ok (data, ep) =>
    match env.applyJsonata data step.responseMapping with
    | .error e =>
      { stepId := step.id, success := false, config := step.apiConfig,
        error := some ("Error in direct execution for step " ++ step.id ++ ": " ++ e) }
    | .ok td =>
      { stepId := step.id, success := true, rawData := some data,
        transformedData := some td, config := ep }

/-! ### Call Orchestrator (`callResolver`, src/unnamed/part_001 lines 216-305)

`callResolver` invokes the `executeApiCall` of the same file (with no
integration argument, i.e. `undefined`), then `executeTransform`,
the datastore, and the webhook notifier.  The `payload` argument is
only forwarded to collaborators and is folded into the oracles; the
run timestamps are not modelled. -/

structure ApiInputRequest where
  id : Option String := none
  endpoint : Option ApiConfig := none
deriving DecidableEq

/-- The persisted run record (`createRun`) / returned result object
(timestamps omitted). -/
structure RunRecord where
  id : String
  success : Bool
  error : Option String := none
  config : Option ApiConfig := none
deriving DecidableEq

/-- One `notifyWebhook(url, callId, success, data?, error?)` call. -/
structure WebhookCall where
  url : String
  callId : String
  success : Bool
  data : Option Json := none
  error : Option String := none
deriving DecidableEq

/-- The partial config returned by `executeTransform` and spread over
the endpoint (`{...endpoint, ...transformResult?.config}`): a `some`
field is present and overwrites the endpoint's. -/
structure TransformOverlayCfg where
  id : Option String := none
  instruction : Option String := none
  responseSchema : Option (Option Json) := none
  responseMapping : Option (Option String) := none
deriving DecidableEq

def mergeConfig (e : ApiConfig) (t : TransformOverlayCfg) : ApiConfig :=
  { id := t.id.getD e.id
    urlHost := e.urlHost
    instruction := t.instruction.getD e.instruction
    responseSchema := t.responseSchema.getD e.responseSchema
    responseMapping := t.responseMapping.getD e.responseMapping }

def lookupField : List (String × Json) → String → Option Json
  | [], _ => none
  | (k, v) :: rest, key => if k = key then some v else lookupField rest key

/-- `(endpoint?.responseSchema as any)?._def?.typeName === "ZodObject"`. -/
def isZodSchema : Option Json → Bool
  | some (.obj fs) =>
    match lookupField fs "_def" with
    | some (.obj ds) =>
      match lookupField ds "typeName" with
      | some (.str t) => t = "ZodObject"
      | _ => false
    | _ => false
  | _ => false

def zodNotSupportedMsg : String :=
  "zod is not supported for response schema. Please use json schema instead. you can use the zod-to-json-schema package to convert zod to json schema."

def cacheRead (options : RequestOptions) : Bool :=
  match options.cacheMode with
  | none => true
  | some CacheMode.ENABLED => true
  | some CacheMode.READONLY => true
  | some _ => false

def cacheWrite (options : RequestOptions) : Bool :=
  match options.cacheMode with
  | none => false
  | some CacheMode.ENABLED => true
  | some CacheMode.WRITEONLY => true
  | some _ => false

structure ResolverEnv where
  exec : ExecEnv
  /-- `context.datastore.getApiConfig(id, orgId)` (a miss is `none`). -/
  getApiConfig : String → Option ApiConfig
  /-- `executeTransform({fromCache, input: {endpoint}, data, …})` →
  `{data, config}` or a thrown error. -/
  executeTransform : Bool → ApiConfig → Json → Except String (Json × TransformOverlayCfg)

/-- Everything observable about one `callResolver` invocation: the
returned result, the returned `data` field, the persisted runs, the
webhook notifications, and the `upsertApiConfig` calls. -/
structure ResolverOut where
  result : RunRecord
  data : Option Json := none
  runs : List RunRecord
  webhooks : List WebhookCall
  upserts : List (String × ApiConfig)
deriving DecidableEq

/-- The `catch` block of `callResolver` (lines 288-304): the webhook is
notified with the *raw* `error.message`; the persisted run and the
returned result carry the masked error. -/
def resolverCatch (callId : String) (credentials : List (String × String))
    (options : RequestOptions) (endpointVar : Option ApiConfig) (rawMsg : String) :
    ResolverOut :=
  let maskedError := maskCredentials rawMsg credentials
  let webhooks :=
    if jsTruthyOptStr options.webhookUrl then
      [⟨options.webhookUrl.getD "", callId, false, none, some rawMsg⟩]
    else []
  let result : RunRecord := ⟨callId, false, some maskedError, endpointVar⟩
  ⟨result, none, [result], webhooks, ([] : List (String × ApiConfig))⟩

/-- `callResolver` (lines 216-305).  A missing resolved config
(JS `undefined`) is passed to `executeApiCall` as the empty config; the
transport oracle decides what failure that produces. -/
def callResolverRun (env : ResolverEnv) (callId : String) (input : ApiInputRequest)
    (credentials : List (String × String)) (options : RequestOptions) : ResolverOut :=
  let endpoint0 : Option ApiConfig :=
    if jsTruthyOptStr input.id then env.getApiConfig (input.id.getD "")
    else input.endpoint
  if isZodSchema (endpoint0.bind (fun e => e.responseSchema)) then
    resolverCatch callId credentials options endpoint0 zodNotSupportedMsg
  else
    let callRes := executeApiCall env.exec (endpoint0.getD {}) credentials options none
    match callRes.outcome with
    | .err e => resolverCatch callId credentials options endpoint0 e
    | .ok data ep =>
      match env.executeTransform (cacheRead options) ep data with
      | .error e => resolverCatch callId credentials options (some ep) e
      | .ok (tdata, overlay) =>
        let config := mergeConfig ep overlay
        let upserts :=
          if cacheWrite options then
            [(if jsTruthyOptStr input.id then input.id.getD "" else ep.id, config)]
          else []
        let webhooks :=
          if jsTruthyOptStr options.webhookUrl then
            [⟨options.webhookUrl.getD "", callId, true, some tdata, none⟩]
          else []
        let result : RunRecord := ⟨callId, true, none, some config⟩
        ⟨result, some tdata, [result], webhooks, upserts⟩

/-! ### Helpers for stating the claims -/

/-- The attempt counter an executor event belongs to. -/
def Ev.attempt : Ev → Nat
  | .genCall n _ => n
  | .transportCall n _ => n
  | .transportOk n _ => n
  | .validatorCall n => n
  | .fail n _ => n
  | .errAppend n _ => n
  | .guideAppend n => n

/-- Number of transport calls recorded in a trace. -/
def countTransport (tr : List Ev) : Nat :=
  (tr.filter (fun e => match e with | .transportCall _ _ => true | _ => false)).length

/-- The event trace of an attempt, uniformly over both outcomes. -/
def AttemptOut.trace : AttemptOut → List Ev
  | .ok _ _ _ tr => tr
  | .fail _ tr => tr

/-! ### Lemmas about credential masking -/

/-- Splitting an infix of a concatenation: it lies in the left part, in
the right part, or spans the junction. -/
theorem infix_append_split {α : Type*} {q a b : List α} (h : q <:+: a ++ b) :
    q <:+: a ∨ q <:+: b ∨
      ∃ q₁ q₂, q = q₁ ++ q₂ ∧ q₁ ≠ [] ∧ q₂ ≠ [] ∧ q₁ <:+ a ∧ q₂ <+: b := by
  induction a with
  | nil => right; left; exact h
  | cons c a ih =>
    rw [List.cons_append, List.infix_cons_iff] at h
    rcases h with hpre | hinf
    · rw [← List.cons_append] at hpre
      rcases List.prefix_or_prefix_of_prefix hpre (List.prefix_append (c :: a) b) with hq | hq
      · left; exact hq.isInfix
      · obtain ⟨q₂, hq2⟩ := hq
        rcases eq_or_ne q₂ [] with rfl | hne
        · left; rw [← hq2]; simp only [List.append_nil]; exact List.infix_refl (c :: a)
        · right; right
          obtain ⟨t, ht⟩ := hpre
          rw [← hq2, List.append_assoc] at ht
          exact ⟨c :: a, q₂, hq2.symm, by simp, hne, List.suffix_refl _,
            ⟨t, List.append_cancel_left ht⟩⟩
    · rcases ih hinf with h1 | h2 | ⟨q₁, q₂, rfl, hq1, hq2, hsuf, hpre⟩
      · left; exact h1.trans (List.suffix_cons c a).isInfix
      · right; left; exact h2
      · right; right
        exact ⟨q₁, q₂, rfl, hq1, hq2, hsuf.trans (List.suffix_cons c a), hpre⟩

/-- Every element of an infix of an all-star run is a star. -/
theorem eq_star_of_infix_replicate {q : List Char} {k : Nat} {star : Char}
    (h : q <:+: List.replicate k star) {c : Char} (hc : c ∈ q) : c = star :=
  List.eq_of_mem_replicate (h.sublist.subset hc)

/-- A star-free prefix of a replacement result is a prefix of the
original string. -/
theorem prefix_of_prefix_replaceAllF (pat : List Char) :
    ∀ (fuel : Nat) (s q : List Char), '*' ∉ q →
      q <+: replaceAllF pat (List.replicate pat.length '*') fuel s → q <+: s := by
  intro fuel
  induction fuel with
  | zero => intro s q _ h; cases s <;> simpa [replaceAllF] using h
  | succ fuel ih =>
    intro s q hstar h
    cases s with
    | nil => simpa [replaceAllF] using h
    | cons c rest =>
      rw [replaceAllF] at h
      by_cases hm : pat ≠ [] ∧ pat.isPrefixOf (c :: rest)
      · rw [if_pos hm] at h
        rcases q with _ | ⟨q0, q'⟩
        · exact List.nil_prefix
        · obtain ⟨n, hn⟩ : ∃ n, pat.length = n + 1 :=
            ⟨pat.length - 1, by have := List.length_pos.2 hm.1; omega⟩
          rw [hn, List.replicate_succ, List.cons_append, List.cons_prefix_cons] at h
          exact absurd (h.1 ▸ List.mem_cons_self q0 q') hstar
      · rw [if_neg hm] at h
        rcases q with _ | ⟨q0, q'⟩
        · exact List.nil_prefix
        · rw [List.cons_prefix_cons] at h
          obtain ⟨rfl, h'⟩ := h
          exact List.cons_prefix_cons.2
            ⟨rfl, ih rest q' (fun hmem => hstar (List.mem_cons_of_mem _ hmem)) h'⟩

/-- A nonempty star-free infix of a replacement result is an infix of
the original string. -/
theorem infix_of_infix_replaceAllF (pat : List Char) :
    ∀ (fuel : Nat) (s q : List Char), q ≠ [] → '*' ∉ q →
      q <:+: replaceAllF pat (List.replicate pat.length '*') fuel s → q <:+: s := by
  intro fuel
  induction fuel with
  | zero => intro s q _ _ h; cases s <;> simpa [replaceAllF] using h
  | succ fuel ih =>
    intro s q hne hstar h
    cases s with
    | nil =>
      rw [replaceAllF] at h
      exact absurd (List.sublist_nil.1 h.sublist) hne
    | cons c rest =>
      rw [replaceAllF] at h
      by_cases hm : pat ≠ [] ∧ pat.isPrefixOf (c :: rest)
      · rw [if_pos hm] at h
        rcases infix_append_split h with h1 | h2 | ⟨q₁, q₂, rfl, hq1, _, hsuf, _⟩
        · obtain ⟨q0, q'⟩ := List.exists_cons_of_ne_nil hne
          obtain ⟨q'', rfl⟩ := q'
          exact absurd (eq_star_of_infix_replicate h1 (List.mem_cons_self _ _) ▸
            List.mem_cons_self q0 q'') hstar
        · exact (ih _ q hne hstar h2).trans (List.drop_suffix _ _).isInfix
        · obtain ⟨q0, q'⟩ := List.exists_cons_of_ne_nil hq1
          obtain ⟨q'', rfl⟩ := q'
          have : q0 = '*' := eq_star_of_infix_replicate hsuf.isInfix (List.mem_cons_self _ _)
          exact absurd (this ▸ List.mem_append_left q₂ (List.mem_cons_self q0 q'')) hstar
      · rw [if_neg hm] at h
        rcases List.infix_cons_iff.1 h with hpre | hinf
        · obtain ⟨q0, q'⟩ := List.exists_cons_of_ne_nil hne
          obtain ⟨q'', rfl⟩ := q'
          rw [List.cons_prefix_cons] at hpre
          obtain ⟨rfl, h'⟩ := hpre
          have := prefix_of_prefix_replaceAllF pat fuel rest q''
            (fun hmem => hstar (List.mem_cons_of_mem _ hmem)) h'
          exact (List.cons_prefix_cons.2 ⟨rfl, this⟩).isInfix
        · exact (ih rest q hne hstar hinf).trans (List.suffix_cons c rest).isInfix

/-- After replacement, the (nonempty, star-free) pattern no longer
occurs. -/
theorem not_pat_infix_replaceAllF (pat : List Char) (hne : pat ≠ []) (hstar : '*' ∉ pat) :
    ∀ (fuel : Nat) (s : List Char), s.length ≤ fuel →
      ¬ pat <:+: replaceAllF pat (List.replicate pat.length '*') fuel s := by
  intro fuel
  induction fuel with
  | zero =>
    intro s hs h
    rw [List.length_eq_zero.1 (Nat.le_zero.1 hs)] at h
    exact absurd (List.sublist_nil.1 h.sublist) hne
  | succ fuel ih =>
    intro s hs h
    cases s with
    | nil =>
      rw [replaceAllF] at h
      exact absurd (List.sublist_nil.1 h.sublist) hne
    | cons c rest =>
      rw [replaceAllF] at h
      by_cases hm : pat ≠ [] ∧ pat.isPrefixOf (c :: rest)
      · rw [if_pos hm] at h
        rcases infix_append_split h with h1 | h2 | ⟨q₁, q₂, heq, hq1, _, hsuf, _⟩
        · obtain ⟨p0, p'⟩ := List.exists_cons_of_ne_nil hne
          obtain ⟨p'', rfl⟩ := p'
          exact absurd (eq_star_of_infix_replicate h1 (List.mem_cons_self _ _) ▸
            List.mem_cons_self p0 p'') hstar
        · have hlen : ((c :: rest).drop pat.length).length ≤ fuel := by
            have := List.length_pos.2 hm.1
            simp only [List.length_drop]
            simp only [List.length_cons] at hs ⊢
            omega
          exact ih _ hlen h2
        · obtain ⟨q0, q'⟩ := List.exists_cons_of_ne_nil hq1
          obtain ⟨q'', rfl⟩ := q'
          have : q0 = '*' := eq_star_of_infix_replicate hsuf.isInfix (List.mem_cons_self _ _)
          exact absurd (heq ▸ this ▸ List.mem_append_left q₂ (List.mem_cons_self q0 q'')) hstar
      · rw [if_neg hm] at h
        rcases List.infix_cons_iff.1 h with hpre | hinf
        · obtain ⟨p0, p'⟩ := List.exists_cons_of_ne_nil hne
          obtain ⟨p'', rfl⟩ := p'
          rw [List.cons_prefix_cons] at hpre
          obtain ⟨rfl, h'⟩ := hpre
          have hp : (p0 :: p'') <+: (p0 :: rest) :=
            List.cons_prefix_cons.2 ⟨rfl, prefix_of_prefix_replaceAllF _ fuel rest p''
              (fun hmem => hstar (List.mem_cons_of_mem _ hmem)) h'⟩
          exact hm ⟨hne, List.isPrefixOf_iff_prefix.2 hp⟩
        · exact ih rest (by simp only [List.length_cons] at hs; omega) hinf

theorem not_infix_replaceAll_self {v s : List Char} (h1 : v ≠ []) (h2 : '*' ∉ v) :
    ¬ v <:+: replaceAll v (List.replicate v.length '*') s :=
  not_pat_infix_replaceAllF v h1 h2 s.length s le_rfl

theorem not_infix_replaceAll_other {pat q s : List Char} (h1 : q ≠ []) (h2 : '*' ∉ q)
    (h3 : ¬ q <:+: s) : ¬ q <:+: replaceAll pat (List.replicate pat.length '*') s :=
  fun h => h3 (infix_of_infix_replaceAllF pat s.length s q h1 h2 h)

theorem not_infix_maskFold_of_not_infix {q : List Char} (h1 : q ≠ []) (h2 : '*' ∉ q) :
    ∀ (creds : List (String × String)) (l : List Char),
      ¬ q <:+: l → ¬ q <:+: maskFold creds l
  | [], _, h => h
  | _ :: rest, _, h =>
    not_infix_maskFold_of_not_infix h1 h2 rest _ (not_infix_replaceAll_other h1 h2 h)

/-- After `maskFold`, a (nonempty, star-free) credential value of the
map no longer occurs in the string. -/
theorem maskFold_no_cred :
    ∀ (creds : List (String × String)) (l : List Char) (kv : String × String),
      kv ∈ creds → kv.2.data ≠ [] → '*' ∉ kv.2.data →
      ¬ kv.2.data <:+: maskFold creds l := by
  intro creds
  induction creds with
  | nil => intro l kv hmem; exact absurd hmem (List.not_mem_nil kv)
  | cons kv0 rest ih =>
    intro l kv hmem hne hstar
    rcases List.mem_cons.1 hmem with rfl | hrest
    · exact not_infix_maskFold_of_not_infix hne hstar rest _
        (not_infix_replaceAll_self hne hstar)
    · exact ih _ kv hrest hne hstar

/-- A (nonempty, star-free) credential value does not occur in the
masked error string. -/
theorem maskCredentials_no_cred {msg : String} {creds : List (String × String)}
    {kv : String × String} (hmem : kv ∈ creds) (hne : kv.2 ≠ "") (hstar : '*' ∉ kv.2.data) :
    ¬ kv.2.data <:+: (maskCredentials msg creds).data :=
  maskFold_no_cred creds msg.data kv hmem (fun hd => hne (String.ext hd)) hstar

theorem infix_of_infix_jsSlice {q : List Char} {s : String} {n : Nat}
    (h : q <:+: (jsSlice s n).data) : q <:+: s.data :=
  h.trans (List.take_prefix n s.data).isInfix

/-- A nonempty space-free string that occurs neither in the exhaustion
format text (which ends in a space) nor in the last masked error does
not occur in the thrown message. -/
theorem no_infix_failMsg {v : List Char} {r : Nat} {last : String}
    (hne : v ≠ []) (hsp : ' ' ∉ v)
    (hfmt : ¬ v <:+: (failMsgHead r).data)
    (hlast : ¬ v <:+: last.data) :
    ¬ v <:+: (failMsgHead r ++ last).data := by
  intro h
  rw [String.data_append] at h
  rcases infix_append_split h with h1 | h2 | ⟨q₁, q₂, rfl, hq1, _, hsuf, _⟩
  · exact hfmt h1
  · exact hlast h2
  · have hfmtLast : (failMsgHead r).data.getLast? = some ' ' := by
      show (("API call failed after " ++ toString r ++ " retries. Last error: ") : String).data.getLast? = some ' '
      rw [String.data_append, String.data_append, List.append_assoc, List.getLast?_append,
        List.getLast?_append]
      rfl
    obtain ⟨t, ht⟩ := hsuf
    obtain ⟨x, hx⟩ := Option.isSome_iff_exists.1 (List.getLast?_isSome.2 hq1)
    have : x = ' ' := by
      rw [← ht, List.getLast?_append, hx] at hfmtLast
      simpa using hfmtLast
    exact hsp (List.mem_append_left q₂ (this ▸ List.mem_of_getLast?_eq_some hx))

/-! ### Structural lemmas about the executor's retry loop -/

/-- Shape of the `catch` block's result: state with the masked,
truncated `lastError`, and the appended events. -/
theorem catchAttempt_cases (creds : List (String × String)) (rc : Nat) (ep : ApiConfig)
    (msgs : List Msg) (raw : String) (tr : List Ev) :
    ∃ msgsOut extra,
      catchAttempt creds rc ep msgs raw tr =
        .fail ⟨ep, msgsOut, some (jsSlice (maskCredentials raw creds) 1000)⟩ (tr ++ extra) ∧
      ((rc = 0 ∧ extra = [.fail rc raw]) ∨
       (0 < rc ∧ (extra = [.fail rc raw, .errAppend rc (errMsgHead ++ jsSlice raw 2000)] ∨
          extra = [.fail rc raw, .errAppend rc (errMsgHead ++ jsSlice raw 2000),
            .guideAppend rc]))) := by
  unfold catchAttempt
  dsimp only
  by_cases h0 : rc = 0
  · subst h0
    rw [if_pos rfl]
    exact ⟨msgs, [.fail 0 raw], rfl, Or.inl ⟨rfl, rfl⟩⟩
  · rw [if_neg h0]
    split
    · refine ⟨msgs ++ [⟨"user", errMsgHead ++ jsSlice raw 2000⟩,
          ⟨"user", guideCheckHead ++ " " ++ PROMPT_MAPPING⟩],
        [.fail rc raw, .errAppend rc (errMsgHead ++ jsSlice raw 2000), .guideAppend rc],
        ?_, Or.inr ⟨Nat.pos_of_ne_zero h0, Or.inr rfl⟩⟩
      simp
    · exact ⟨_, _, rfl, Or.inr ⟨Nat.pos_of_ne_zero h0, Or.inl rfl⟩⟩

/-- Full case analysis of one loop-body iteration after regeneration:
either a success whose trace appends the transport (and possibly
validator) events, or a failure through the `catch` block. -/
theorem attemptCore_cases (env : ExecEnv) (creds : List (String × String)) (isSH : Bool)
    (rc : Nat) (ep : ApiConfig) (msgs : List Msg) (tr0 : List Ev) :
    (∃ data msgsOut post,
        attemptCore env creds isSH rc ep msgs tr0 = .ok data ep msgsOut (tr0 ++ post) ∧
        data.isFalsy = false ∧
        ((post = [.transportCall rc ep, .transportOk rc data] ∧ ¬(0 < rc ∧ isSH = true)) ∨
         (post = [.transportCall rc ep, .transportOk rc data, .validatorCall rc] ∧
           (0 < rc ∧ isSH = true)))) ∨
    (∃ raw msgsOut mid extra,
        attemptCore env creds isSH rc ep msgs tr0 =
          .fail ⟨ep, msgsOut, some (jsSlice (maskCredentials raw creds) 1000)⟩
            ((tr0 ++ mid) ++ extra) ∧
        (mid = [.transportCall rc ep] ∨
         (∃ d, d.isFalsy = true ∧ mid = [.transportCall rc ep, .transportOk rc d]) ∨
         (∃ d, d.isFalsy = false ∧ 0 < rc ∧ isSH = true ∧
            mid = [.transportCall rc ep, .transportOk rc d, .validatorCall rc])) ∧
        ((rc = 0 ∧ extra = [.fail rc raw]) ∨
         (0 < rc ∧ (extra = [.fail rc raw, .errAppend rc (errMsgHead ++ jsSlice raw 2000)] ∨
            extra = [.fail rc raw, .errAppend rc (errMsgHead ++ jsSlice raw 2000),
              .guideAppend rc])))) := by
  unfold attemptCore
  dsimp only
  cases hcall : env.callEndpoint rc ep with
  | error e =>
    right
    obtain ⟨msgsOut, extra, heq, hcase⟩ :=
      catchAttempt_cases creds rc ep msgs e (tr0 ++ [.transportCall rc ep])
    exact ⟨e, msgsOut, [.transportCall rc ep], extra, heq, Or.inl rfl, hcase⟩
  | ok data =>
    dsimp only
    by_cases hf : data.isFalsy = true
    · right
      rw [if_pos hf]
      obtain ⟨msgsOut, extra, heq, hcase⟩ :=
        catchAttempt_cases creds rc ep msgs
          "No data returned from API. This could be due to a configuration error."
          ((tr0 ++ [.transportCall rc ep]) ++ [.transportOk rc data])
      refine ⟨_, msgsOut, [.transportCall rc ep, .transportOk rc data], extra, ?_,
        Or.inr (Or.inl ⟨data, hf, rfl⟩), hcase⟩
      rw [heq]
      simp
    · have hf' : data.isFalsy = false := by simpa using hf
      rw [if_neg hf]
      by_cases hsh : 0 < rc ∧ isSH = true
      · rw [if_pos hsh]
        by_cases hv : (env.evaluateResponse rc data).1 = true
        · rw [if_pos hv]
          left
          refine ⟨data, msgs, [.transportCall rc ep, .transportOk rc data, .validatorCall rc],
            ?_, hf', Or.inr ⟨rfl, hsh⟩⟩
          simp
        · rw [if_neg hv]
          right
          obtain ⟨msgsOut, extra, heq, hcase⟩ :=
            catchAttempt_cases creds rc ep msgs
              ((env.evaluateResponse rc data).2 ++ " " ++ jsSlice (Json.stringify data) 1000)
              (((tr0 ++ [.transportCall rc ep]) ++ [.transportOk rc data]) ++ [.validatorCall rc])
          refine ⟨_, msgsOut, [.transportCall rc ep, .transportOk rc data, .validatorCall rc],
            extra, ?_, Or.inr (Or.inr ⟨data, hf', hsh.1, hsh.2, rfl⟩), hcase⟩
          rw [heq]
          simp
      · rw [if_neg hsh]
        left
        refine ⟨data, msgs, [.transportCall rc ep, .transportOk rc data], ?_,
          hf', Or.inl ⟨rfl, hsh⟩⟩
        simp

theorem countTransport_append (a b : List Ev) :
    countTransport (a ++ b) = countTransport a + countTransport b := by
  simp [countTransport, List.filter_append]

/-- Properties of the transport/validation segment of a failing
attempt's trace. -/
theorem midParts (rc : Nat) (ep0 : ApiConfig) (isSH : Bool) (mid : List Ev)
    (hmid : mid = [Ev.transportCall rc ep0] ∨
      (∃ d, d.isFalsy = true ∧ mid = [Ev.transportCall rc ep0, Ev.transportOk rc d]) ∨
      (∃ d, d.isFalsy = false ∧ 0 < rc ∧ isSH = true ∧
        mid = [Ev.transportCall rc ep0, Ev.transportOk rc d, Ev.validatorCall rc])) :
    (∀ e ∈ mid, e.attempt = rc) ∧
    countTransport mid = 1 ∧
    (∀ n c, Ev.errAppend n c ∉ mid) ∧
    (∀ n r, Ev.fail n r ∉ mid) ∧
    (∀ n d, Ev.genCall n d ∉ mid) ∧
    (∀ n ep', Ev.transportCall n ep' ∈ mid → ep' = ep0) ∧
    (Ev.validatorCall rc ∈ mid →
      0 < rc ∧ isSH = true ∧ ∃ d, Ev.transportOk rc d ∈ mid ∧ d.isFalsy = false) ∧
    ((0 < rc ∧ isSH = true ∧ ∃ d, Ev.transportOk rc d ∈ mid ∧ d.isFalsy = false) →
      Ev.validatorCall rc ∈ mid) := by
  rcases hmid with rfl | ⟨d, hd, rfl⟩ | ⟨d, hd, h1, h2, rfl⟩
  · refine ⟨?_, rfl, ?_, ?_, ?_, ?_, ?_, ?_⟩
    · intro e he; simp at he; subst he; rfl
    · intro n c h; simp at h
    · intro n r h; simp at h
    · intro n d h; simp at h
    · intro n ep' h; simp at h; exact h.2
    · intro h; simp at h
    · rintro ⟨-, -, d', hmem, -⟩; simp at hmem
  · refine ⟨?_, rfl, ?_, ?_, ?_, ?_, ?_, ?_⟩
    · intro e he; simp at he; rcases he with rfl | rfl <;> rfl
    · intro n c h; simp at h
    · intro n r h; simp at h
    · intro n d h; simp at h
    · intro n ep' h; simp at h; exact h.2
    · intro h; simp at h
    · rintro ⟨-, -, d', hmem, hfal⟩
      simp at hmem
      rw [hmem] at hfal
      rw [hd] at hfal
      cases hfal
  · refine ⟨?_, rfl, ?_, ?_, ?_, ?_, ?_, ?_⟩
    · intro e he; simp at he; rcases he with rfl | rfl | rfl <;> rfl
    · intro n c h; simp at h
    · intro n r h; simp at h
    · intro n d h; simp at h
    · intro n ep' h; simp at h; exact h.2
    · intro _; exact ⟨h1, h2, d, by simp, hd⟩
    · intro _; simp

/-- Properties of the `catch` segment of a failing attempt's trace. -/
theorem extraParts (rc : Nat) (raw : String) (extra : List Ev)
    (hextra : (rc = 0 ∧ extra = [Ev.fail rc raw]) ∨
      (0 < rc ∧ (extra = [Ev.fail rc raw, Ev.errAppend rc (errMsgHead ++ jsSlice raw 2000)] ∨
        extra = [Ev.fail rc raw, Ev.errAppend rc (errMsgHead ++ jsSlice raw 2000),
          Ev.guideAppend rc]))) :
    (∀ e ∈ extra, e.attempt = rc) ∧
    countTransport extra = 0 ∧
    Ev.fail rc raw ∈ extra ∧
    (∀ n c, Ev.errAppend n c ∈ extra →
      n = rc ∧ 0 < rc ∧ c = errMsgHead ++ jsSlice raw 2000) ∧
    (∀ n d, Ev.genCall n d ∉ extra) ∧
    (∀ n, Ev.validatorCall n ∉ extra) ∧
    (∀ n d, Ev.transportOk n d ∉ extra) ∧
    (∀ n ep, Ev.transportCall n ep ∉ extra) := by
  rcases hextra with ⟨h0, rfl⟩ | ⟨hpos, rfl | rfl⟩
  · refine ⟨?_, rfl, by simp, ?_, ?_, ?_, ?_, ?_⟩
    · intro e he; simp at he; subst he; rfl
    · intro n c h; simp at h
    · intro n d h; simp at h
    · intro n h; simp at h
    · intro n d h; simp at h
    · intro n ep h; simp at h
  · refine ⟨?_, rfl, by simp, ?_, ?_, ?_, ?_, ?_⟩
    · intro e he; simp at he; rcases he with rfl | rfl <;> rfl
    · intro n c h
      simp at h
      exact ⟨h.1, hpos, h.2⟩
    · intro n d h; simp at h
    · intro n h; simp at h
    · intro n d h; simp at h
    · intro n ep h; simp at h
  · refine ⟨?_, rfl, by simp, ?_, ?_, ?_, ?_, ?_⟩
    · intro e he; simp at he; rcases he with rfl | rfl | rfl <;> rfl
    · intro n c h
      simp at h
      exact ⟨h.1, hpos, h.2⟩
    · intro n d h; simp at h
    · intro n h; simp at h
    · intro n d h; simp at h
    · intro n ep h; simp at h

/-- Assembling the per-attempt properties of a failing attempt's trace
`(tr0 ++ mid) ++ extra` from the properties of its three segments. -/
theorem failAssemble (rc : Nat) (ep0 : ApiConfig) (isSH : Bool) (doc : String) (raw : String)
    (tr0 mid extra : List Ev)
    (h0idx : ∀ e ∈ tr0, e.attempt = rc)
    (h0ct : countTransport tr0 = 0)
    (h0err : ∀ n c, Ev.errAppend n c ∉ tr0)
    (h0gen : ∀ n d, Ev.genCall n d ∈ tr0 → 0 < rc ∧ isSH = true ∧ d = doc)
    (h0val : ∀ n, Ev.validatorCall n ∉ tr0)
    (h0tok : ∀ n d, Ev.transportOk n d ∉ tr0)
    (h0tc : ∀ n ep, Ev.transportCall n ep ∉ tr0)
    (hmid : mid = [Ev.transportCall rc ep0] ∨
      (∃ d, d.isFalsy = true ∧ mid = [Ev.transportCall rc ep0, Ev.transportOk rc d]) ∨
      (∃ d, d.isFalsy = false ∧ 0 < rc ∧ isSH = true ∧
        mid = [Ev.transportCall rc ep0, Ev.transportOk rc d, Ev.validatorCall rc]))
    (hextra : (rc = 0 ∧ extra = [Ev.fail rc raw]) ∨
      (0 < rc ∧ (extra = [Ev.fail rc raw, Ev.errAppend rc (errMsgHead ++ jsSlice raw 2000)] ∨
        extra = [Ev.fail rc raw, Ev.errAppend rc (errMsgHead ++ jsSlice raw 2000),
          Ev.guideAppend rc]))) :
    (∀ e ∈ (tr0 ++ mid) ++ extra, e.attempt = rc) ∧
    countTransport ((tr0 ++ mid) ++ extra) = 1 ∧
    Ev.fail rc raw ∈ (tr0 ++ mid) ++ extra ∧
    (∀ n c, Ev.errAppend n c ∈ (tr0 ++ mid) ++ extra →
      0 < n ∧ ∃ raw', Ev.fail n raw' ∈ (tr0 ++ mid) ++ extra ∧
        c = errMsgHead ++ jsSlice raw' 2000) ∧
    (∀ n d, Ev.genCall n d ∈ (tr0 ++ mid) ++ extra → 0 < rc ∧ isSH = true ∧ d = doc) ∧
    (∀ n ep', Ev.transportCall n ep' ∈ (tr0 ++ mid) ++ extra → ep' = ep0) ∧
    (Ev.validatorCall rc ∈ (tr0 ++ mid) ++ extra ↔
      (0 < rc ∧ isSH = true ∧
        ∃ d, Ev.transportOk rc d ∈ (tr0 ++ mid) ++ extra ∧ d.isFalsy = false)) := by
  obtain ⟨m1, m2, m3, m4, m5, m6, m7, m8⟩ := midParts rc ep0 isSH mid hmid
  obtain ⟨e1, e2, e3, e4, e5, e6, e7, e8⟩ := extraParts rc raw extra hextra
  refine ⟨?_, ?_, ?_, ?_, ?_, ?_, ?_⟩
  · intro e he
    rcases List.mem_append.1 he with he | he
    · rcases List.mem_append.1 he with he | he
      exacts [h0idx e he, m1 e he]
    · exact e1 e he
  · rw [countTransport_append, countTransport_append, h0ct, m2, e2]
  · exact List.mem_append_right _ e3
  · intro n c hc
    rcases List.mem_append.1 hc with hc | hc
    · rcases List.mem_append.1 hc with hc | hc
      · exact absurd hc (h0err n c)
      · exact absurd hc (m3 n c)
    · obtain ⟨rfl, hpos, rfl⟩ := e4 n c hc
      exact ⟨hpos, raw, List.mem_append_right _ e3, rfl⟩
  · intro n d hd
    rcases List.mem_append.1 hd with hd | hd
    · rcases List.mem_append.1 hd with hd | hd
      · exact h0gen n d hd
      · exact absurd hd (m5 n d)
    · exact absurd hd (e5 n d)
  · intro n ep' hep
    rcases List.mem_append.1 hep with hep | hep
    · rcases List.mem_append.1 hep with hep | hep
      · exact absurd hep (h0tc n ep')
      · exact m6 n ep' hep
    · exact absurd hep (e8 n ep')
  · constructor
    · intro hv
      rcases List.mem_append.1 hv with hv | hv
      · rcases List.mem_append.1 hv with hv | hv
        · exact absurd hv (h0val rc)
        · obtain ⟨hpos, hsh, d, hd, hfal⟩ := m7 hv
          exact ⟨hpos, hsh, d, List.mem_append_left _ (List.mem_append_right _ hd), hfal⟩
      · exact absurd hv (e6 rc)
    · rintro ⟨hpos, hsh, d, hd, hfal⟩
      have hdm : Ev.transportOk rc d ∈ mid := by
        rcases List.mem_append.1 hd with hd | hd
        · rcases List.mem_append.1 hd with hd | hd
          · exact absurd hd (h0tok rc d)
          · exact hd
        · exact absurd hd (e7 rc d)
      exact List.mem_append_left _ (List.mem_append_right _ (m8 ⟨hpos, hsh, d, hdm, hfal⟩))

/-- Summary of one loop-body iteration: every event carries the current
attempt counter; exactly one transport call; a failure records a masked
truncated `lastError` for a raw error whose `fail` event is traced;
transcript error-appends happen only for `attempt > 0` and carry the
raw (2000-truncated) error; the synthesizer runs only when
`attempt > 0` with self-healing on, receiving the documentation string;
without regeneration the transport is called on the state's config
verbatim; and the validator runs exactly when `attempt > 0`,
self-healing is on, and the transport returned a truthy body. -/
theorem attemptOnce_spec (env : ExecEnv) (creds : List (String × String)) (isSH : Bool)
    (doc : String) (rc : Nat) (st : LoopState) :
    (∀ e ∈ (attemptOnce env creds isSH doc rc st).trace, e.attempt = rc) ∧
    countTransport (attemptOnce env creds isSH doc rc st).trace = 1 ∧
    (∀ st' tr, attemptOnce env creds isSH doc rc st = .fail st' tr →
      ∃ raw, st'.lastError = some (jsSlice (maskCredentials raw creds) 1000) ∧
        Ev.fail rc raw ∈ tr) ∧
    (∀ n c, Ev.errAppend n c ∈ (attemptOnce env creds isSH doc rc st).trace →
      0 < n ∧ ∃ raw, Ev.fail n raw ∈ (attemptOnce env creds isSH doc rc st).trace ∧
        c = errMsgHead ++ jsSlice raw 2000) ∧
    (∀ n d, Ev.genCall n d ∈ (attemptOnce env creds isSH doc rc st).trace →
      0 < rc ∧ isSH = true ∧ d = doc) ∧
    (∀ n ep, Ev.transportCall n ep ∈ (attemptOnce env creds isSH doc rc st).trace →
      ¬(0 < rc ∧ isSH = true) → ep = st.endpoint) ∧
    (Ev.validatorCall rc ∈ (attemptOnce env creds isSH doc rc st).trace ↔
      (0 < rc ∧ isSH = true ∧
        ∃ d, Ev.transportOk rc d ∈ (attemptOnce env creds isSH doc rc st).trace ∧
          d.isFalsy = false)) := by
  unfold attemptOnce
  split
  next hsh =>
    rcases attemptCore_cases env creds isSH rc
        (env.generateApiConfig rc doc st.endpoint st.messages).1
        (env.generateApiConfig rc doc st.endpoint st.messages).2 [Ev.genCall rc doc] with
      ⟨data, msgsOut, post, heq, hfal, hpost⟩ | ⟨raw, msgsOut, mid, extra, heq, hmid, hextra⟩
    · rw [heq]
      rcases hpost with ⟨rfl, habs⟩ | ⟨rfl, -⟩
      · exact absurd hsh habs
      · refine ⟨?_, ?_, ?_, ?_, ?_, ?_, ?_⟩
        · intro e he
          simp only [AttemptOut.trace, List.mem_append, List.mem_cons,
            List.mem_singleton, List.not_mem_nil, or_false] at he
          rcases he with rfl | rfl | rfl | rfl <;> rfl
        · simp [AttemptOut.trace, countTransport]
        · intro st' tr h; cases h
        · intro n c hc
          simp [AttemptOut.trace] at hc
        · intro n d hd
          simp only [AttemptOut.trace, List.mem_append, List.mem_cons,
            List.mem_singleton, List.not_mem_nil, or_false] at hd
          rcases hd with hd | hd | hd | hd <;> simp_all
        · intro n ep hep habs; exact absurd hsh habs
        · constructor
          · intro _
            exact ⟨hsh.1, hsh.2, data, by simp [AttemptOut.trace], hfal⟩
          · intro _
            simp [AttemptOut.trace]
    · rw [heq]
      obtain ⟨f1, f2, f3, f4, f5, f6, f7⟩ :=
        failAssemble rc (env.generateApiConfig rc doc st.endpoint st.messages).1 isSH doc raw
          [Ev.genCall rc doc] mid extra
          (by intro e he; simp at he; subst he; rfl) rfl
          (by intro n c h; simp at h) 
          (by intro n d h; simp at h; exact ⟨hsh.1, hsh.2, h.2⟩)
          (by intro n h; simp at h)
          (by intro n d h; simp at h)
          (by intro n ep h; simp at h)
          hmid hextra
      refine ⟨f1, f2, ?_, f4, f5, ?_, f7⟩
      · intro st' tr h
        injection h with h1 h2
        subst h1 h2
        exact ⟨raw, rfl, f3⟩
      · intro n ep hep habs
        exact absurd hsh habs
  next hsh =>
    rcases attemptCore_cases env creds isSH rc st.endpoint st.messages [] with
      ⟨data, msgsOut, post, heq, hfal, hpost⟩ | ⟨raw, msgsOut, mid, extra, heq, hmid, hextra⟩
    · rw [heq]
      rcases hpost with ⟨rfl, -⟩ | ⟨rfl, habs⟩
      · refine ⟨?_, ?_, ?_, ?_, ?_, ?_, ?_⟩
        · intro e he
          simp only [AttemptOut.trace, List.nil_append, List.mem_cons,
            List.mem_singleton, List.not_mem_nil, or_false] at he
          rcases he with rfl | rfl <;> rfl
        · simp [AttemptOut.trace, countTransport]
        · intro st' tr h; cases h
        · intro n c hc
          simp [AttemptOut.trace] at hc
        · intro n d hd
          simp [AttemptOut.trace] at hd
        · intro n ep hep hne
          simp only [AttemptOut.trace, List.nil_append, List.mem_cons,
            List.mem_singleton, List.not_mem_nil, or_false] at hep
          rcases hep with hep | hep <;> simp_all
        · constructor
          · intro hv
            simp [AttemptOut.trace] at hv
          · rintro ⟨hpos, hsh', -⟩
            exact absurd ⟨hpos, hsh'⟩ hsh
      · exact absurd habs hsh
    · rw [heq]
      obtain ⟨f1, f2, f3, f4, f5, f6, f7⟩ :=
        failAssemble rc st.endpoint isSH doc raw [] mid extra
          (by intro e he; simp at he) rfl
          (by intro n c h; simp at h)
          (by intro n d h; simp at h)
          (by intro n h; simp at h)
          (by intro n d h; simp at h)
          (by intro n ep h; simp at h)
          hmid hextra
      refine ⟨f1, f2, ?_, f4, f5, ?_, f7⟩
      · intro st' tr h
        injection h with h1 h2
        subst h1 h2
        exact ⟨raw, rfl, f3⟩
      · intro n ep hep hne
        exact f6 n ep hep

/-- Every event produced from attempt `rc` onwards carries an attempt
counter `≥ rc`. -/
theorem execGo_idx (env : ExecEnv) (creds : List (String × String)) (isSH : Bool)
    (doc : String) (retries : Nat) :
    ∀ (fuel rc : Nat) (st : LoopState) (e : Ev),
      e ∈ (execGo env creds isSH doc retries fuel rc st).trace → rc ≤ e.attempt := by
  intro fuel
  induction fuel with
  | zero =>
    intro rc st e he
    rw [execGo] at he
    cases hA : attemptOnce env creds isSH doc rc st with
    | ok data ep msgs tr =>
      rw [hA] at he
      exact Nat.le_of_eq ((attemptOnce_spec env creds isSH doc rc st).1 e
        (by rw [hA]; exact he)).symm
    | fail st' tr =>
      rw [hA] at he
      dsimp only at he
      split at he
      · exact Nat.le_of_eq ((attemptOnce_spec env creds isSH doc rc st).1 e
          (by rw [hA]; exact he)).symm
      · exact Nat.le_of_eq ((attemptOnce_spec env creds isSH doc rc st).1 e
          (by rw [hA]; exact he)).symm
  | succ fuel ih =>
    intro rc st e he
    rw [execGo] at he
    cases hA : attemptOnce env creds isSH doc rc st with
    | ok data ep msgs tr =>
      rw [hA] at he
      exact Nat.le_of_eq ((attemptOnce_spec env creds isSH doc rc st).1 e
        (by rw [hA]; exact he)).symm
    | fail st' tr =>
      rw [hA] at he
      dsimp only at he
      split at he
      · rcases List.mem_append.1 he with he | he
        · exact Nat.le_of_eq ((attemptOnce_spec env creds isSH doc rc st).1 e
            (by rw [hA]; exact he)).symm
        · exact Nat.le_of_succ_le (ih (rc + 1) st' e he)
      · exact Nat.le_of_eq ((attemptOnce_spec env creds isSH doc rc st).1 e
          (by rw [hA]; exact he)).symm

/-- The retry loop makes at most `max (retries - rc) 1` transport calls
from attempt `rc` on (so at most `retries` overall when `retries ≥ 1`). -/
theorem execGo_count (env : ExecEnv) (creds : List (String × String)) (isSH : Bool)
    (doc : String) (retries : Nat) :
    ∀ (fuel rc : Nat) (st : LoopState),
      countTransport (execGo env creds isSH doc retries fuel rc st).trace
        ≤ max (retries - rc) 1 := by
  intro fuel
  induction fuel with
  | zero =>
    intro rc st
    obtain ⟨-, s2, -⟩ := attemptOnce_spec env creds isSH doc rc st
    rw [execGo]
    cases hA : attemptOnce env creds isSH doc rc st with
    | ok data ep msgs tr =>
      rw [hA] at s2
      exact le_trans (le_of_eq s2) (le_max_right _ _)
    | fail st' tr =>
      rw [hA] at s2
      dsimp only
      split
      · exact le_trans (le_of_eq s2) (le_max_right _ _)
      · exact le_trans (le_of_eq s2) (le_max_right _ _)
  | succ fuel ih =>
    intro rc st
    obtain ⟨-, s2, -⟩ := attemptOnce_spec env creds isSH doc rc st
    rw [execGo]
    cases hA : attemptOnce env creds isSH doc rc st with
    | ok data ep msgs tr =>
      rw [hA] at s2
      exact le_trans (le_of_eq s2) (le_max_right _ _)
    | fail st' tr =>
      rw [hA] at s2
      dsimp only
      split
      next hlt =>
        have hrec := ih (rc + 1) st'
        have s2' : countTransport tr = 1 := s2
        rw [countTransport_append, s2']
        have hmax : max (retries - (rc + 1)) 1 = retries - (rc + 1) := by omega
        rw [hmax] at hrec
        omega
      · exact le_trans (le_of_eq s2) (le_max_right _ _)

/-- On exhaustion the loop reports the full retry budget as the attempt
count, and `lastError` is a masked, 1000-truncated raw error. -/
theorem execGo_err (env : ExecEnv) (creds : List (String × String)) (isSH : Bool)
    (doc : String) (retries : Nat) :
    ∀ (fuel rc : Nat) (st : LoopState) (k : Nat) (le : Option String),
      (execGo env creds isSH doc retries fuel rc st).outcome = .error (k, le) →
      retries ≤ fuel + rc → rc < retries →
      k = retries ∧ ∃ raw, le = some (jsSlice (maskCredentials raw creds) 1000) := by
  intro fuel
  induction fuel with
  | zero =>
    intro rc st k le hout hinv hlt
    obtain ⟨-, -, s3, -⟩ := attemptOnce_spec env creds isSH doc rc st
    rw [execGo] at hout
    cases hA : attemptOnce env creds isSH doc rc st with
    | ok data ep msgs tr => rw [hA] at hout; cases hout
    | fail st' tr =>
      rw [hA] at hout
      dsimp only at hout
      split at hout
      next h => omega
      next h =>
        injection hout with h1
        injection h1 with hk hle
        obtain ⟨raw, hraw, -⟩ := s3 st' tr hA
        exact ⟨by omega, raw, by rw [← hle, hraw]⟩
  | succ fuel ih =>
    intro rc st k le hout hinv hlt
    obtain ⟨-, -, s3, -⟩ := attemptOnce_spec env creds isSH doc rc st
    rw [execGo] at hout
    cases hA : attemptOnce env creds isSH doc rc st with
    | ok data ep msgs tr => rw [hA] at hout; cases hout
    | fail st' tr =>
      rw [hA] at hout
      dsimp only at hout
      split at hout
      next h => exact ih (rc + 1) st' k le hout (by omega) h
      next h =>
        injection hout with h1
        injection h1 with hk hle
        obtain ⟨raw, hraw, -⟩ := s3 st' tr hA
        exact ⟨by omega, raw, by rw [← hle, hraw]⟩

/-- Every transcript error-append in a run belongs to an attempt
`> 0` and carries the raw (2000-truncated) error of that attempt. -/
theorem execGo_errAppend (env : ExecEnv) (creds : List (String × String)) (isSH : Bool)
    (doc : String) (retries : Nat) :
    ∀ (fuel rc : Nat) (st : LoopState) (n : Nat) (c : String),
      Ev.errAppend n c ∈ (execGo env creds isSH doc retries fuel rc st).trace →
      0 < n ∧ ∃ raw, Ev.fail n raw ∈ (execGo env creds isSH doc retries fuel rc st).trace ∧
        c = errMsgHead ++ jsSlice raw 2000 := by
  intro fuel
  induction fuel with
  | zero =>
    intro rc st n c hc
    obtain ⟨-, -, -, s4, -⟩ := attemptOnce_spec env creds isSH doc rc st
    rw [execGo] at hc ⊢
    cases hA : attemptOnce env creds isSH doc rc st with
    | ok data ep msgs tr =>
      rw [hA] at hc
      dsimp only at hc ⊢
      obtain ⟨hn, raw, hmem, hcc⟩ := s4 n c (by rw [hA]; exact hc)
      rw [hA] at hmem
      exact ⟨hn, raw, hmem, hcc⟩
    | fail st' tr =>
      rw [hA] at hc
      dsimp only at hc ⊢
      split at hc
      next h =>
        rw [if_pos h]
        obtain ⟨hn, raw, hmem, hcc⟩ := s4 n c (by rw [hA]; exact hc)
        rw [hA] at hmem
        exact ⟨hn, raw, hmem, hcc⟩
      next h =>
        rw [if_neg h]
        obtain ⟨hn, raw, hmem, hcc⟩ := s4 n c (by rw [hA]; exact hc)
        rw [hA] at hmem
        exact ⟨hn, raw, hmem, hcc⟩
  | succ fuel ih =>
    intro rc st n c hc
    obtain ⟨-, -, -, s4, -⟩ := attemptOnce_spec env creds isSH doc rc st
    rw [execGo] at hc ⊢
    cases hA : attemptOnce env creds isSH doc rc st with
    | ok data ep msgs tr =>
      rw [hA] at hc
      dsimp only at hc ⊢
      obtain ⟨hn, raw, hmem, hcc⟩ := s4 n c (by rw [hA]; exact hc)
      rw [hA] at hmem
      exact ⟨hn, raw, hmem, hcc⟩
    | fail st' tr =>
      rw [hA] at hc
      dsimp only at hc ⊢
      split at hc
      next h =>
        rw [if_pos h]
        dsimp only
        rcases List.mem_append.1 hc with hc | hc
        · obtain ⟨hn, raw, hmem, hcc⟩ := s4 n c (by rw [hA]; exact hc)
          rw [hA] at hmem
          exact ⟨hn, raw, List.mem_append_left _ hmem, hcc⟩
        · obtain ⟨hn, raw, hmem, hcc⟩ := ih (rc + 1) st' n c hc
          exact ⟨hn, raw, List.mem_append_right _ hmem, hcc⟩
      next h =>
        rw [if_neg h]
        obtain ⟨hn, raw, hmem, hcc⟩ := s4 n c (by rw [hA]; exact hc)
        rw [hA] at hmem
        exact ⟨hn, raw, hmem, hcc⟩

/-- Every synthesizer call in a run happens on an attempt `> 0`, with
self-healing enabled, and receives the resolved documentation string. -/
theorem execGo_genCall (env : ExecEnv) (creds : List (String × String)) (isSH : Bool)
    (doc : String) (retries : Nat) :
    ∀ (fuel rc : Nat) (st : LoopState) (n : Nat) (d : String),
      Ev.genCall n d ∈ (execGo env creds isSH doc retries fuel rc st).trace →
      0 < n ∧ isSH = true ∧ d = doc := by
  intro fuel
  induction fuel with
  | zero =>
    intro rc st n d hd
    obtain ⟨s1, -, -, -, s5, -⟩ := attemptOnce_spec env creds isSH doc rc st
    rw [execGo] at hd
    cases hA : attemptOnce env creds isSH doc rc st with
    | ok data ep msgs tr =>
      rw [hA] at hd
      dsimp only at hd
      obtain ⟨hrc, hsh, hdoc⟩ := s5 n d (by rw [hA]; exact hd)
      have hn : n = rc := s1 (Ev.genCall n d) (by rw [hA]; exact hd)
      exact ⟨by omega, hsh, hdoc⟩
    | fail st' tr =>
      rw [hA] at hd
      dsimp only at hd
      split at hd <;>
      · obtain ⟨hrc, hsh, hdoc⟩ := s5 n d (by rw [hA]; exact hd)
        have hn : n = rc := s1 (Ev.genCall n d) (by rw [hA]; exact hd)
        exact ⟨by omega, hsh, hdoc⟩
  | succ fuel ih =>
    intro rc st n d hd
    obtain ⟨s1, -, -, -, s5, -⟩ := attemptOnce_spec env creds isSH doc rc st
    rw [execGo] at hd
    cases hA : attemptOnce env creds isSH doc rc st with
    | ok data ep msgs tr =>
      rw [hA] at hd
      dsimp only at hd
      obtain ⟨hrc, hsh, hdoc⟩ := s5 n d (by rw [hA]; exact hd)
      have hn : n = rc := s1 (Ev.genCall n d) (by rw [hA]; exact hd)
      exact ⟨by omega, hsh, hdoc⟩
    | fail st' tr =>
      rw [hA] at hd
      dsimp only at hd
      split at hd
      next h =>
        rcases List.mem_append.1 hd with hd | hd
        · obtain ⟨hrc, hsh, hdoc⟩ := s5 n d (by rw [hA]; exact hd)
          have hn : n = rc := s1 (Ev.genCall n d) (by rw [hA]; exact hd)
          exact ⟨by omega, hsh, hdoc⟩
        · exact ih (rc + 1) st' n d hd
      next h =>
        obtain ⟨hrc, hsh, hdoc⟩ := s5 n d (by rw [hA]; exact hd)
        have hn : n = rc := s1 (Ev.genCall n d) (by rw [hA]; exact hd)
        exact ⟨by omega, hsh, hdoc⟩

/-- The transport call of the first attempt of a run (attempt `rc` of
`execGo`, attempt `0` of `executeApiCall`) uses the state's config
verbatim whenever regeneration is off for that attempt. -/
theorem execGo_transport_first (env : ExecEnv) (creds : List (String × String)) (isSH : Bool)
    (doc : String) (retries : Nat) :
    ∀ (fuel rc : Nat) (st : LoopState) (ep : ApiConfig),
      Ev.transportCall rc ep ∈ (execGo env creds isSH doc retries fuel rc st).trace →
      ¬(0 < rc ∧ isSH = true) → ep = st.endpoint := by
  intro fuel
  induction fuel with
  | zero =>
    intro rc st ep hep hne
    obtain ⟨-, -, -, -, -, s6, -⟩ := attemptOnce_spec env creds isSH doc rc st
    rw [execGo] at hep
    cases hA : attemptOnce env creds isSH doc rc st with
    | ok data ep' msgs tr =>
      rw [hA] at hep
      dsimp only at hep
      exact s6 rc ep (by rw [hA]; exact hep) hne
    | fail st' tr =>
      rw [hA] at hep
      dsimp only at hep
      split at hep <;> exact s6 rc ep (by rw [hA]; exact hep) hne
  | succ fuel ih =>
    intro rc st ep hep hne
    obtain ⟨-, -, -, -, -, s6, -⟩ := attemptOnce_spec env creds isSH doc rc st
    rw [execGo] at hep
    cases hA : attemptOnce env creds isSH doc rc st with
    | ok data ep' msgs tr =>
      rw [hA] at hep
      dsimp only at hep
      exact s6 rc ep (by rw [hA]; exact hep) hne
    | fail st' tr =>
      rw [hA] at hep
      dsimp only at hep
      split at hep
      next h =>
        rcases List.mem_append.1 hep with hep | hep
        · exact s6 rc ep (by rw [hA]; exact hep) hne
        · have := execGo_idx env creds isSH doc retries fuel (rc + 1) st' _ hep
          exact absurd this (by simp only [Ev.attempt]; omega)
      next h =>
        exact s6 rc ep (by rw [hA]; exact hep) hne

/-- Across a whole run, the validator is invoked on attempt `n` exactly
when `n > 0`, self-healing is enabled, and the transport call of
attempt `n` returned a truthy body. -/
theorem execGo_validator_iff (env : ExecEnv) (creds : List (String × String)) (isSH : Bool)
    (doc : String) (retries : Nat) :
    ∀ (fuel rc : Nat) (st : LoopState) (n : Nat),
      Ev.validatorCall n ∈ (execGo env creds isSH doc retries fuel rc st).trace ↔
        (0 < n ∧ isSH = true ∧
          ∃ d, Ev.transportOk n d ∈ (execGo env creds isSH doc retries fuel rc st).trace ∧
            d.isFalsy = false) := by
  intro fuel
  induction fuel with
  | zero =>
    intro rc st n
    obtain ⟨s1, -, -, -, -, -, s7⟩ := attemptOnce_spec env creds isSH doc rc st
    rw [execGo]
    cases hA : attemptOnce env creds isSH doc rc st with
    | ok data ep msgs tr =>
      dsimp only
      by_cases hn : n = rc
      · subst hn
        constructor
        · intro hv
          obtain ⟨hpos, hsh, d, hd, hfal⟩ := s7.1 (by rw [hA]; exact hv)
          rw [hA] at hd
          exact ⟨hpos, hsh, d, hd, hfal⟩
        · rintro ⟨hpos, hsh, d, hd, hfal⟩
          have := s7.2 ⟨hpos, hsh, d, by rw [hA]; exact hd, hfal⟩
          rw [hA] at this
          exact this
      · constructor
        · intro hv
          exact absurd (s1 (Ev.validatorCall n) (by rw [hA]; exact hv)) hn
        · rintro ⟨-, -, d, hd, -⟩
          exact absurd (s1 (Ev.transportOk n d) (by rw [hA]; exact hd)) hn
    | fail st' tr =>
      dsimp only
      split
      all_goals
        by_cases hn : n = rc
        · subst hn
          constructor
          · intro hv
            obtain ⟨hpos, hsh, d, hd, hfal⟩ := s7.1 (by rw [hA]; exact hv)
            rw [hA] at hd
            exact ⟨hpos, hsh, d, hd, hfal⟩
          · rintro ⟨hpos, hsh, d, hd, hfal⟩
            have := s7.2 ⟨hpos, hsh, d, by rw [hA]; exact hd, hfal⟩
            rw [hA] at this
            exact this
        · constructor
          · intro hv
            exact absurd (s1 (Ev.validatorCall n) (by rw [hA]; exact hv)) hn
          · rintro ⟨-, -, d, hd, -⟩
            exact absurd (s1 (Ev.transportOk n d) (by rw [hA]; exact hd)) hn
  | succ fuel ih =>
    intro rc st n
    obtain ⟨s1, -, -, -, -, -, s7⟩ := attemptOnce_spec env creds isSH doc rc st
    rw [execGo]
    cases hA : attemptOnce env creds isSH doc rc st with
    | ok data ep msgs tr =>
      dsimp only
      by_cases hn : n = rc
      · subst hn
        constructor
        · intro hv
          obtain ⟨hpos, hsh, d, hd, hfal⟩ := s7.1 (by rw [hA]; exact hv)
          rw [hA] at hd
          exact ⟨hpos, hsh, d, hd, hfal⟩
        · rintro ⟨hpos, hsh, d, hd, hfal⟩
          have := s7.2 ⟨hpos, hsh, d, by rw [hA]; exact hd, hfal⟩
          rw [hA] at this
          exact this
      · constructor
        · intro hv
          exact absurd (s1 (Ev.validatorCall n) (by rw [hA]; exact hv)) hn
        · rintro ⟨-, -, d, hd, -⟩
          exact absurd (s1 (Ev.transportOk n d) (by rw [hA]; exact hd)) hn
    | fail st' tr =>
      dsimp only
      split
      next hlt =>
        dsimp only
        by_cases hn : n = rc
        · subst hn
          constructor
          · intro hv
            rcases List.mem_append.1 hv with hv | hv
            · obtain ⟨hpos, hsh, d, hd, hfal⟩ := s7.1 (by rw [hA]; exact hv)
              rw [hA] at hd
              exact ⟨hpos, hsh, d, List.mem_append_left _ hd, hfal⟩
            · have := execGo_idx env creds isSH doc retries fuel (n + 1) st' _ hv
              exact absurd this (by simp only [Ev.attempt]; omega)
          · rintro ⟨hpos, hsh, d, hd, hfal⟩
            rcases List.mem_append.1 hd with hd | hd
            · have := s7.2 ⟨hpos, hsh, d, by rw [hA]; exact hd, hfal⟩
              rw [hA] at this
              exact List.mem_append_left _ this
            · have := execGo_idx env creds isSH doc retries fuel (n + 1) st' _ hd
              exact absurd this (by simp only [Ev.attempt]; omega)
        · constructor
          · intro hv
            rcases List.mem_append.1 hv with hv | hv
            · exact absurd (s1 (Ev.validatorCall n) (by rw [hA]; exact hv)) hn
            · obtain ⟨hpos, hsh, d, hd, hfal⟩ := (ih (rc + 1) st' n).1 hv
              exact ⟨hpos, hsh, d, List.mem_append_right _ hd, hfal⟩
          · rintro ⟨hpos, hsh, d, hd, hfal⟩
            rcases List.mem_append.1 hd with hd | hd
            · exact absurd (s1 (Ev.transportOk n d) (by rw [hA]; exact hd)) hn
            · exact List.mem_append_right _
                ((ih (rc + 1) st' n).2 ⟨hpos, hsh, d, hd, hfal⟩)
      next hlt =>
        by_cases hn : n = rc
        · subst hn
          constructor
          · intro hv
            obtain ⟨hpos, hsh, d, hd, hfal⟩ := s7.1 (by rw [hA]; exact hv)
            rw [hA] at hd
            exact ⟨hpos, hsh, d, hd, hfal⟩
          · rintro ⟨hpos, hsh, d, hd, hfal⟩
            have := s7.2 ⟨hpos, hsh, d, by rw [hA]; exact hd, hfal⟩
            rw [hA] at this
            exact this
        · constructor
          · intro hv
            exact absurd (s1 (Ev.validatorCall n) (by rw [hA]; exact hv)) hn
          · rintro ⟨-, -, d, hd, -⟩
            exact absurd (s1 (Ev.transportOk n d) (by rw [hA]; exact hd)) hn

/-- Relating `executeApiCall` to its retry loop when documentation
resolution succeeds. -/
theorem executeApiCall_run (env : ExecEnv) (endpoint : ApiConfig)
    (creds : List (String × String)) (options : RequestOptions)
    (integration : Option Integration) (doc : String)
    (hdoc : resolveDocumentation integration (isSelfHealingEnabled options) = .ok doc) :
    (executeApiCall env endpoint creds options integration).trace =
      (execGo env creds (isSelfHealingEnabled options) doc (options.retries.getD 8)
        (options.retries.getD 8) 0 ⟨endpoint, [], none⟩).trace ∧
    (∀ m, (executeApiCall env endpoint creds options integration).outcome = .err m →
      ∃ k le, (execGo env creds (isSelfHealingEnabled options) doc (options.retries.getD 8)
          (options.retries.getD 8) 0 ⟨endpoint, [], none⟩).outcome = .error (k, le) ∧
        m = failMsgHead k ++ le.getD "null") := by
  unfold executeApiCall
  dsimp only
  rw [hdoc]
  dsimp only
  cases hout : (execGo env creds (isSelfHealingEnabled options) doc (options.retries.getD 8)
      (options.retries.getD 8) 0 ⟨endpoint, [], none⟩).outcome with
  | ok v =>
    obtain ⟨data, ep⟩ := v
    dsimp only
    exact ⟨rfl, by intro m h; cases h⟩
  | error v =>
    obtain ⟨k, le⟩ := v
    dsimp only
    refine ⟨rfl, ?_⟩
    intro m h
    injection h with h1
    exact ⟨k, le, rfl, h1.symm⟩

/-- C1 (amended): in every `executeApiCall` run, every user-role
transcript message appended by the error handler belongs to a failing
attempt with index `> 0` and carries the *raw* error string truncated
to 2000 characters — not the masked error.  (Masking, with truncation
to 1000 characters, is applied to the `lastError` used for logging and
for the final thrown message.) -/
theorem claim_C1 (env : ExecEnv) (endpoint : ApiConfig)
    (creds : List (String × String)) (options : RequestOptions)
    (integration : Option Integration) (n : Nat) (c : String)
    (hc : Ev.errAppend n c ∈ (executeApiCall env endpoint creds options integration).trace) :
    0 < n ∧
    ∃ raw, Ev.fail n raw ∈ (executeApiCall env endpoint creds options integration).trace ∧
      c = errMsgHead ++ jsSlice raw 2000 := by
  cases hdoc : resolveDocumentation integration (isSelfHealingEnabled options) with
  | error e =>
    unfold executeApiCall at hc
    dsimp only at hc
    rw [hdoc] at hc
    exact absurd hc (List.not_mem_nil _)
  | ok doc =>
    obtain ⟨htr, -⟩ := executeApiCall_run env endpoint creds options integration doc hdoc
    rw [htr] at hc
    obtain ⟨hn, raw, hmem, hcc⟩ := execGo_errAppend env creds (isSelfHealingEnabled options)
      doc (options.retries.getD 8) (options.retries.getD 8) 0 ⟨endpoint, [], none⟩ n c hc
    exact ⟨hn, raw, by rw [htr]; exact hmem, hcc⟩

set_option maxRecDepth 4000 in
/-- C1 witness: a concrete run in which attempt 1 fails; the
error-handler transcript append carries the raw error. -/
theorem claim_C1_witness :
    0 < 1 ∧
    ∃ raw, Ev.fail 1 raw ∈ (executeApiCall
        ⟨fun _ _ ep ms => (ep, ms),
         fun _ _ => .error "Unauthorized: key secret123 rejected",
         fun _ _ => (true, "")⟩
        {} [("apiKey", "secret123")] { retries := some 2 } none).trace ∧
      ("There was an error with the configuration, please fix: Unauthorized: key secret123 rejected" : String) =
        errMsgHead ++ jsSlice raw 2000 :=
  claim_C1
    ⟨fun _ _ ep ms => (ep, ms),
     fun _ _ => .error "Unauthorized: key secret123 rejected",
     fun _ _ => (true, "")⟩
    {} [("apiKey", "secret123")] { retries := some 2 } none 1 _ (by decide)

set_option maxRecDepth 10000 in
/-- C1 counterexample: in the same concrete run, a user-role transcript
message describing a failing attempt's error contains the raw
credential-bearing error string and does not contain the masked error —
so the transcript append is not credential-masked, contrary to the
claim. -/
theorem claim_C1_counterexample :
    ∃ m ∈ (executeApiCall
        ⟨fun _ _ ep ms => (ep, ms),
         fun _ _ => .error "Unauthorized: key secret123 rejected",
         fun _ _ => (true, "")⟩
        {} [("apiKey", "secret123")] { retries := some 2 } none).messages,
      m.role = "user" ∧
      ("secret123" : String).data <:+: m.content.data ∧
      ¬ (maskCredentials "Unauthorized: key secret123 rejected"
          [("apiKey", "secret123")]).data <:+: m.content.data := by
  decide

/-- C2: for a retry budget `r = options.retries ?? 8` with `r ≥ 1` (and
documentation resolution succeeding), `executeApiCall` performs at most
`r` transport calls; if it fails, the thrown message names the attempt
count `r` and ends with the last masked (1000-truncated) error, and no
credential value (nonempty, star- and space-free, not occurring in the
fixed format text) occurs in the thrown message. -/
theorem claim_C2 (env : ExecEnv) (endpoint : ApiConfig) (creds : List (String × String))
    (options : RequestOptions) (integration : Option Integration) (doc : String)
    (hdoc : resolveDocumentation integration (isSelfHealingEnabled options) = .ok doc)
    (hr : 1 ≤ options.retries.getD 8) :
    countTransport (executeApiCall env endpoint creds options integration).trace
      ≤ options.retries.getD 8 ∧
    ∀ m, (executeApiCall env endpoint creds options integration).outcome = .err m →
      (∃ raw, m = failMsgHead (options.retries.getD 8) ++
          jsSlice (maskCredentials raw creds) 1000) ∧
      ∀ kv ∈ creds, kv.2 ≠ "" → '*' ∉ kv.2.data → ' ' ∉ kv.2.data →
        ¬ kv.2.data <:+: (failMsgHead (options.retries.getD 8)).data →
        ¬ kv.2.data <:+: m.data := by
  obtain ⟨htr, hout⟩ := executeApiCall_run env endpoint creds options integration doc hdoc
  constructor
  · rw [htr]
    have := execGo_count env creds (isSelfHealingEnabled options) doc
      (options.retries.getD 8) (options.retries.getD 8) 0 ⟨endpoint, [], none⟩
    omega
  · intro m hm
    obtain ⟨k, le, hko, hmm⟩ := hout m hm
    obtain ⟨hk, raw, hle⟩ := execGo_err env creds (isSelfHealingEnabled options) doc
      (options.retries.getD 8) (options.retries.getD 8) 0 ⟨endpoint, [], none⟩ k le hko
      (by omega) (by omega)
    subst hk
    rw [hle] at hmm
    refine ⟨⟨raw, hmm⟩, ?_⟩
    intro kv hmem hne hstar hsp hfmt
    rw [hmm]
    exact no_infix_failMsg (fun hd => hne (String.ext hd)) hsp hfmt
      (fun h => maskCredentials_no_cred hmem hne hstar (infix_of_infix_jsSlice h))

set_option maxRecDepth 10000 in
/-- C2 witness: a concrete exhausted run with `retries = 2` and a
credential-bearing transport error; the thrown message names 2 attempts
and the masked error, and indeed equals the expected masked text. -/
theorem claim_C2_witness :
    (countTransport (executeApiCall
        ⟨fun _ _ ep ms => (ep, ms),
         fun _ _ => .error "Unauthorized: key secret123 rejected",
         fun _ _ => (true, "")⟩
        {} [("apiKey", "secret123")] { retries := some 2 } none).trace ≤ 2 ∧
      ∀ m, (executeApiCall
          ⟨fun _ _ ep ms => (ep, ms),
           fun _ _ => .error "Unauthorized: key secret123 rejected",
           fun _ _ => (true, "")⟩
          {} [("apiKey", "secret123")] { retries := some 2 } none).outcome = .err m →
        (∃ raw, m = failMsgHead 2 ++
            jsSlice (maskCredentials raw [("apiKey", "secret123")]) 1000) ∧
        ∀ kv ∈ [("apiKey", "secret123")], kv.2 ≠ "" → '*' ∉ kv.2.data → ' ' ∉ kv.2.data →
          ¬ kv.2.data <:+: (failMsgHead 2).data →
          ¬ kv.2.data <:+: m.data) ∧
    (executeApiCall
        ⟨fun _ _ ep ms => (ep, ms),
         fun _ _ => .error "Unauthorized: key secret123 rejected",
         fun _ _ => (true, "")⟩
        {} [("apiKey", "secret123")] { retries := some 2 } none).outcome =
      .err "API call failed after 2 retries. Last error: Unauthorized: key ********* rejected" :=
  ⟨claim_C2
    ⟨fun _ _ ep ms => (ep, ms),
     fun _ _ => .error "Unauthorized: key secret123 rejected",
     fun _ _ => (true, "")⟩
    {} [("apiKey", "secret123")] { retries := some 2 } none "" rfl (by decide),
   by decide⟩

/-- C3 (amended): attempt 0 always runs the transport on the supplied
config verbatim and never invokes the synthesizer (which runs only on
attempts `> 0` with self-healing enabled); the validator is invoked on
attempt `n` if and only if `n > 0`, self-healing is enabled, *and* the
transport call of attempt `n` returned a truthy response body (it is
skipped when the transport throws or returns an empty body). -/
theorem claim_C3 (env : ExecEnv) (endpoint : ApiConfig) (creds : List (String × String))
    (options : RequestOptions) (integration : Option Integration) (doc : String)
    (hdoc : resolveDocumentation integration (isSelfHealingEnabled options) = .ok doc) :
    (∀ ep, Ev.transportCall 0 ep ∈
        (executeApiCall env endpoint creds options integration).trace → ep = endpoint) ∧
    (∀ n d, Ev.genCall n d ∈ (executeApiCall env endpoint creds options integration).trace →
      0 < n ∧ isSelfHealingEnabled options = true) ∧
    (∀ n, Ev.validatorCall n ∈ (executeApiCall env endpoint creds options integration).trace ↔
      (0 < n ∧ isSelfHealingEnabled options = true ∧
        ∃ d, Ev.transportOk n d ∈ (executeApiCall env endpoint creds options integration).trace ∧
          d.isFalsy = false)) := by
  obtain ⟨htr, -⟩ := executeApiCall_run env endpoint creds options integration doc hdoc
  refine ⟨?_, ?_, ?_⟩
  · intro ep hep
    rw [htr] at hep
    exact execGo_transport_first env creds (isSelfHealingEnabled options) doc
      (options.retries.getD 8) (options.retries.getD 8) 0 ⟨endpoint, [], none⟩ ep hep
      (by simp)
  · intro n d hd
    rw [htr] at hd
    obtain ⟨hn, hsh, -⟩ := execGo_genCall env creds (isSelfHealingEnabled options) doc
      (options.retries.getD 8) (options.retries.getD 8) 0 ⟨endpoint, [], none⟩ n d hd
    exact ⟨hn, hsh⟩
  · intro n
    rw [htr]
    exact execGo_validator_iff env creds (isSelfHealingEnabled options) doc
      (options.retries.getD 8) (options.retries.getD 8) 0 ⟨endpoint, [], none⟩ n

/-- C3 witness: a concrete run (self-healing on by default, transport
always failing) instantiating the amended statement. -/
theorem claim_C3_witness :
    (∀ ep, Ev.transportCall 0 ep ∈ (executeApiCall
        ⟨fun _ _ ep' ms => (ep', ms),
         fun _ _ => .error "boom",
         fun _ _ => (true, "")⟩
        {} [] { retries := some 2 } none).trace → ep = {}) ∧
    (∀ n d, Ev.genCall n d ∈ (executeApiCall
        ⟨fun _ _ ep' ms => (ep', ms),
         fun _ _ => .error "boom",
         fun _ _ => (true, "")⟩
        {} [] { retries := some 2 } none).trace →
      0 < n ∧ isSelfHealingEnabled { retries := some 2 } = true) ∧
    (∀ n, Ev.validatorCall n ∈ (executeApiCall
        ⟨fun _ _ ep' ms => (ep', ms),
         fun _ _ => .error "boom",
         fun _ _ => (true, "")⟩
        {} [] { retries := some 2 } none).trace ↔
      (0 < n ∧ isSelfHealingEnabled { retries := some 2 } = true ∧
        ∃ d, Ev.transportOk n d ∈ (executeApiCall
            ⟨fun _ _ ep' ms => (ep', ms),
             fun _ _ => .error "boom",
             fun _ _ => (true, "")⟩
            {} [] { retries := some 2 } none).trace ∧ d.isFalsy = false)) :=
  claim_C3
    ⟨fun _ _ ep' ms => (ep', ms),
     fun _ _ => .error "boom",
     fun _ _ => (true, "")⟩
    {} [] { retries := some 2 } none "" rfl

set_option maxRecDepth 4000 in
/-- C3 counterexample: in that same run, attempt 1 happens (its
transport call is in the trace), self-healing is enabled, and the
attempt index is positive — yet the validator is *not* invoked on
attempt 1, because the transport call threw.  So "the validator is
invoked iff the attempt index is greater than 0 and self-healing is
enabled" is false. -/
theorem claim_C3_counterexample :
    isSelfHealingEnabled { retries := some 2 } = true ∧
    Ev.transportCall 1 {} ∈ (executeApiCall
        ⟨fun _ _ ep' ms => (ep', ms),
         fun _ _ => .error "boom",
         fun _ _ => (true, "")⟩
        {} [] { retries := some 2 } none).trace ∧
    Ev.validatorCall 1 ∉ (executeApiCall
        ⟨fun _ _ ep' ms => (ep', ms),
         fun _ _ => .error "boom",
         fun _ _ => (true, "")⟩
        {} [] { retries := some 2 } none).trace := by
  decide

/-- C4: self-healing is enabled by default — `isSelfHealingEnabled` is
`false` exactly when the self-healing option is set to a value that is
neither `ENABLED` nor `REQUEST_ONLY`; an unset option counts as
enabled. -/
theorem claim_C4 (options : RequestOptions) :
    isSelfHealingEnabled options = false ↔
      ∃ m, options.selfHealing = some m ∧ m ≠ SelfHealingMode.ENABLED ∧
        m ≠ SelfHealingMode.REQUEST_ONLY := by
  unfold isSelfHealingEnabled
  cases h : options.selfHealing with
  | none => simp
  | some m => cases m <;> simp

/-- C9 (code bug exhibited): when no integration is supplied and
self-healing is explicitly disabled, `executeApiCall` reads
`integration.documentation` on `undefined` and throws a `TypeError`
*before* the retry loop: the outcome is the raw `TypeError`, no message
is appended, and no attempt (in particular no transport call) ever
happens — whereas the spec says the documentation string is empty and
execution proceeds normally into the retry loop regardless of the
self-healing setting. -/
theorem claim_C9 (env : ExecEnv) (endpoint : ApiConfig) (creds : List (String × String)) :
    executeApiCall env endpoint creds { selfHealing := some SelfHealingMode.DISABLED } none =
      ⟨.err "TypeError: Cannot read properties of undefined (reading \x27documentation\x27)",
        [], []⟩ := rfl

/-- C9 witness: the failing input evaluated with a concrete
environment. -/
theorem claim_C9_witness :
    executeApiCall
        ⟨fun _ _ ep ms => (ep, ms), fun _ _ => .ok (Json.str "fine"), fun _ _ => (true, "")⟩
        {} [] { selfHealing := some SelfHealingMode.DISABLED } none =
      ⟨.err "TypeError: Cannot read properties of undefined (reading \x27documentation\x27)",
        [], []⟩ :=
  claim_C9 ⟨fun _ _ ep ms => (ep, ms), fun _ _ => .ok (Json.str "fine"), fun _ _ => (true, "")⟩
    {} []

/-! ### Lemmas about the execution strategies -/

/-- Iterations only ever collect successful per-item results. -/
theorem runIterations_success (env : StratEnv) (payload : Json) (options : RequestOptions)
    (total : Nat) :
    ∀ (items : List Json) (k : Nat) (acc : LoopAcc),
      (∀ r ∈ acc.results, r.success = true) →
      ∀ acc', runIterations env payload options total items k acc = .ok acc' →
        ∀ r ∈ acc'.results, r.success = true := by
  intro items
  induction items with
  | nil =>
    intro k acc hacc acc' h
    injection h with h1
    exact h1 ▸ hacc
  | cons item rest ih =>
    intro k acc hacc acc' h
    rw [runIterations] at h
    dsimp only at h
    cases hce : env.executeApiCall k (acc.successfulConfig.getD acc.step.apiConfig)
        (mkLoopPayload payload (normItem item)) { options with testMode := some false } with
    | error e => rw [hce] at h; cases h
    | ok v =>
      obtain ⟨data, ep⟩ := v
      rw [hce] at h
      dsimp only at h
      cases hja : env.applyJsonata
          (Json.obj (objFromEntries (("currentItem", normItem item) :: rawDataEntries data)))
          acc.step.responseMapping with
      | error e => rw [hja] at h; cases h
      | ok td =>
        rw [hja] at h
        dsimp only at h
        refine ih (k + 1) _ ?_ acc' h
        intro r hr
        rcases List.mem_append.1 hr with hr | hr
        · exact hacc r hr
        · rw [List.mem_singleton.1 hr]

/-- Abort semantics of the iteration loop: if the executor succeeds
(with total mapping evaluation) strictly before index `i` and fails at
`i`, the loop returns the aggregated error for the `i`-th item and no
executor call is made beyond index `i`. -/
theorem runIterations_err (env : StratEnv) (payload : Json) (options : RequestOptions)
    (total : Nat) (i : Nat) (e : String)
    (hok : ∀ j ep pl o, j < i → ∃ d ep', env.executeApiCall j ep pl o = .ok (d, ep'))
    (happ : ∀ d m, ∃ v, env.applyJsonata d m = .ok v)
    (herr : ∀ ep pl o, env.executeApiCall i ep pl o = .error e) :
    ∀ (items : List Json) (k : Nat) (acc : LoopAcc), k ≤ i → i < k + items.length →
      (∀ j ep, StratEv.execCall j ep ∈ acc.trace → j < k) →
      ∃ x accF, items[i - k]? = some x ∧
        runIterations env payload options total items k acc =
          .error (mkIterError i total (normItem x) e, accF) ∧
        ∀ j ep, StratEv.execCall j ep ∈ accF.trace → j ≤ i := by
  intro items
  induction items with
  | nil =>
    intro k acc hk hlt
    simp at hlt
    omega
  | cons item rest ih =>
    intro k acc hk hlt htr
    rcases eq_or_lt_of_le hk with rfl | hklt
    · refine ⟨item, { acc with trace := acc.trace ++ [.execCall k
        (acc.successfulConfig.getD acc.step.apiConfig)] }, by simp, ?_, ?_⟩
      · rw [runIterations]
        dsimp only
        rw [herr]
      · intro j ep hj
        rcases List.mem_append.1 hj with hj | hj
        · exact Nat.le_of_lt (htr j ep hj)
        · have hj' := List.mem_singleton.1 hj
          injection hj' with h1 h2
          omega
    · obtain ⟨d, ep', hce⟩ := hok k (acc.successfulConfig.getD acc.step.apiConfig)
        (mkLoopPayload payload (normItem item)) { options with testMode := some false } hklt
      obtain ⟨v, hja⟩ := happ
        (Json.obj (objFromEntries (("currentItem", normItem item) :: rawDataEntries d)))
        acc.step.responseMapping
      obtain ⟨x, accF, hx, hrun, htrF⟩ := ih (k + 1)
        { step := { acc.step with apiConfig := ep' },
          successfulConfig := some ep',
          results := acc.results ++
            [{ stepId := acc.step.id,
               success := true,
               rawData := some (Json.obj (objFromEntries
                 (("currentItem", normItem item) :: rawDataEntries d))),
               transformedData := some v,
               config := ep' }],
          trace := (acc.trace ++ [.execCall k (acc.successfulConfig.getD acc.step.apiConfig)])
            ++ [.execOk k ep'] }
        (by omega) (by simp at hlt ⊢; omega)
        (by
          intro j ep hj
          rcases List.mem_append.1 hj with hj | hj
          · rcases List.mem_append.1 hj with hj | hj
            · exact Nat.lt_succ_of_lt (htr j ep hj)
            · simp at hj
              omega
          · simp at hj)
      refine ⟨x, accF, ?_, ?_, htrF⟩
      · rw [show i - k = (i - (k + 1)) + 1 from by omega]
        simpa using hx
      · rw [runIterations]
        dsimp only
        rw [hce]
        dsimp only
        rw [hja]
        dsimp only
        exact hrun

/-- Frame property of the iteration loop: the step object is modified
only at `apiConfig`, and only to an endpoint returned by a successful
executor call recorded in the trace; the trace only grows. -/
theorem runIterations_frame (env : StratEnv) (payload : Json) (options : RequestOptions)
    (total : Nat) :
    ∀ (items : List Json) (k : Nat) (acc : LoopAcc),
      (iterResultAcc (runIterations env payload options total items k acc)).step.id
          = acc.step.id ∧
      (iterResultAcc (runIterations env payload options total items k acc)).step.executionMode
          = acc.step.executionMode ∧
      (iterResultAcc (runIterations env payload options total items k acc)).step.loopMaxIters
          = acc.step.loopMaxIters ∧
      (iterResultAcc (runIterations env payload options total items k acc)).step.responseMapping
          = acc.step.responseMapping ∧
      (iterResultAcc (runIterations env payload options total items k acc)).step.loopSelector
          = acc.step.loopSelector ∧
      (∀ e ∈ acc.trace,
        e ∈ (iterResultAcc (runIterations env payload options total items k acc)).trace) ∧
      ((iterResultAcc (runIterations env payload options total items k acc)).step.apiConfig
          = acc.step.apiConfig ∨
        ∃ i ep, StratEv.execOk i ep ∈
            (iterResultAcc (runIterations env payload options total items k acc)).trace ∧
          (iterResultAcc (runIterations env payload options total items k acc)).step.apiConfig
            = ep) := by
  intro items
  induction items with
  | nil =>
    intro k acc
    exact ⟨rfl, rfl, rfl, rfl, rfl, fun e he => he, Or.inl rfl⟩
  | cons item rest ih =>
    intro k acc
    rw [runIterations]
    dsimp only
    cases hce : env.executeApiCall k (acc.successfulConfig.getD acc.step.apiConfig)
        (mkLoopPayload payload (normItem item)) { options with testMode := some false } with
    | error e =>
      exact ⟨rfl, rfl, rfl, rfl, rfl,
        fun e' he' => List.mem_append_left _ he', Or.inl rfl⟩
    | ok v =>
      obtain ⟨data, ep⟩ := v
      dsimp only
      cases hja : env.applyJsonata
          (Json.obj (objFromEntries (("currentItem", normItem item) :: rawDataEntries data)))
          acc.step.responseMapping with
      | error e =>
        exact ⟨rfl, rfl, rfl, rfl, rfl,
          fun e' he' => List.mem_append_left _ (List.mem_append_left _ he'), Or.inl rfl⟩
      | ok td =>
        dsimp only
        obtain ⟨h1, h2, h3, h4, h5, hmono, hcfg⟩ := ih (k + 1)
          { step := { acc.step with apiConfig := ep },
            successfulConfig := some ep,
            results := acc.results ++
              [{ stepId := acc.step.id,
                 success := true,
                 rawData := some (Json.obj (objFromEntries
                   (("currentItem", normItem item) :: rawDataEntries data))),
                 transformedData := some td,
                 config := ep }],
            trace := (acc.trace ++ [.execCall k (acc.successfulConfig.getD acc.step.apiConfig)])
              ++ [.execOk k ep] }
        refine ⟨h1, h2, h3, h4, h5, ?_, ?_⟩
        · intro e' he'
          exact hmono e' (List.mem_append_left _ (List.mem_append_left _ he'))
        · rcases hcfg with hcfg | ⟨i, ep', hmem, hcfg⟩
          · exact Or.inr ⟨k, ep, hmono _ (List.mem_append_right _ (List.mem_singleton.2 rfl)),
              hcfg⟩
          · exact Or.inr ⟨i, ep', hmem, hcfg⟩

theorem append_ne_empty_left {s t : String} (h : s ≠ "") : s ++ t ≠ "" := by
  intro he
  apply h
  apply String.ext
  have hd : (s ++ t).data = ("" : String).data := by rw [he]
  rw [String.data_append] at hd
  exact (List.append_eq_nil.1 hd).1

/-- Every abort message of the iteration loop is an aggregated per-item
error message. -/
theorem runIterations_err_msg (env : StratEnv) (payload : Json) (options : RequestOptions)
    (total : Nat) :
    ∀ (items : List Json) (k : Nat) (acc : LoopAcc) (msg : String) (accF : LoopAcc),
      runIterations env payload options total items k acc = .error (msg, accF) →
      ∃ i x e', msg = mkIterError i total x e' := by
  intro items
  induction items with
  | nil =>
    intro k acc msg accF h
    cases h
  | cons item rest ih =>
    intro k acc msg accF h
    rw [runIterations] at h
    dsimp only at h
    cases hce : env.executeApiCall k (acc.successfulConfig.getD acc.step.apiConfig)
        (mkLoopPayload payload (normItem item)) { options with testMode := some false } with
    | error e =>
      rw [hce] at h
      injection h with h1
      exact ⟨k, normItem item, e, (congrArg Prod.fst h1).symm⟩
    | ok v =>
      obtain ⟨data, ep⟩ := v
      rw [hce] at h
      dsimp only at h
      cases hja : env.applyJsonata
          (Json.obj (objFromEntries (("currentItem", normItem item) :: rawDataEntries data)))
          acc.step.responseMapping with
      | error e =>
        rw [hja] at h
        injection h with h1
        exact ⟨k, normItem item, e, (congrArg Prod.fst h1).symm⟩
      | ok td =>
        rw [hja] at h
        dsimp only at h
        exact ih (k + 1) _ msg accF h

theorem mkIterError_ne_empty (i total : Nat) (x : Json) (e : String) :
    mkIterError i total x e ≠ "" := by
  unfold mkIterError
  exact append_ne_empty_left (append_ne_empty_left (append_ne_empty_left
    (append_ne_empty_left (append_ne_empty_left (append_ne_empty_left
      (append_ne_empty_left (by decide)))))))

/-- The bounding/iteration/aggregation tail of the loop strategy always
reports the original step id, and on failure it attaches a nonempty
aggregated error message. -/
theorem finishLoop_catch (env : StratEnv) (origId : String) (st : ExecutionStep)
    (payload : Json) (options : RequestOptions) (items : List Json) (tr : List StratEv) :
    (finishLoop env origId st payload options items tr).result.stepId = origId ∧
    ((finishLoop env origId st payload options items tr).result.success = false →
      ∃ e, (finishLoop env origId st payload options items tr).result.error = some e ∧
        e ≠ "") := by
  unfold finishLoop
  dsimp only
  cases hrun : runIterations env payload options (items.take (loopCap st)).length
      (items.take (loopCap st)) 0 ⟨st, none, [], tr⟩ with
  | error v =>
    obtain ⟨msg, accF⟩ := v
    dsimp only
    obtain ⟨i, x, e', hmsg⟩ := runIterations_err_msg env payload options _ _ 0 _ msg accF hrun
    exact ⟨rfl, fun _ => ⟨msg, rfl, hmsg ▸ mkIterError_ne_empty i _ x e'⟩⟩
  | ok acc =>
    dsimp only
    refine ⟨rfl, ?_⟩
    intro hs
    have hall := runIterations_success env payload options _ _ 0 ⟨st, none, [], tr⟩
      (by intro r hr; cases hr) acc hrun
    rw [List.all_eq_true.2 (fun r hr => hall r hr)] at hs
    cases hs

/-- Path enumeration for the loop strategy: selector-missing failure,
regeneration failure, or the bounded iteration tail on one of the three
possible item sources. -/
theorem loopStrategyRun_eq (env : StratEnv) (step0 : ExecutionStep) (payload : Json)
    (options : RequestOptions) :
    ((¬ jsTruthyOptStr step0.loopSelector = true ∧ ¬ payload.isArr = true) ∧
      loopStrategyRun env step0 payload options =
        ⟨{ stepId := step0.id, success := false, config := step0.apiConfig,
           error := some "loopSelector is required for LOOP execution mode" }, step0, []⟩) ∨
    (∃ step1 sel items0,
      ¬(¬ jsTruthyOptStr step0.loopSelector = true ∧ ¬ payload.isArr = true) ∧
      step1 = (if jsTruthyOptStr step0.loopSelector = true then step0
        else { step0 with loopSelector := some "$" }) ∧
      sel = step1.loopSelector.getD "" ∧
      items0 = extractItems env 0 payload sel ∧
      ((items0.isEmpty = false ∧
        loopStrategyRun env step0 payload options =
          finishLoop env step0.id step1 payload options items0 [.extractCall 0 sel]) ∨
       (items0.isEmpty = true ∧
        ((∃ e, env.generateTransformCode payload (regenInstruction step1 payload) = .error e ∧
           loopStrategyRun env step0 payload options =
             ⟨{ stepId := step0.id, success := false, config := step1.apiConfig,
                error := some e }, step1,
              [.extractCall 0 sel] ++ [.regenCall (regenInstruction step1 payload)]⟩) ∨
         (∃ mc, env.generateTransformCode payload (regenInstruction step1 payload) = .ok mc ∧
           ((jsTruthyOptStr mc = true ∧
             loopStrategyRun env step0 payload options =
               finishLoop env step0.id { step1 with loopSelector := mc } payload options
                 (extractItems env 1 payload (mc.getD ""))
                 ([.extractCall 0 sel] ++ [.regenCall (regenInstruction step1 payload)]
                   ++ [.extractCall 1 (mc.getD "")])) ∨
            (¬ jsTruthyOptStr mc = true ∧
             loopStrategyRun env step0 payload options =
               finishLoop env step0.id step1 payload options []
                 ([.extractCall 0 sel] ++
                   [.regenCall (regenInstruction step1 payload)])))))))) := by
  by_cases h1 : ¬ jsTruthyOptStr step0.loopSelector = true ∧ ¬ payload.isArr = true
  · left
    refine ⟨h1, ?_⟩
    unfold loopStrategyRun
    rw [if_pos h1]
  · right
    refine ⟨_, _, _, h1, rfl, rfl, rfl, ?_⟩
    unfold loopStrategyRun
    rw [if_neg h1]
    dsimp only
    by_cases h2 : (extractItems env 0 payload
        ((if jsTruthyOptStr step0.loopSelector = true then step0
          else { step0 with loopSelector := some "$" }).loopSelector.getD "")).isEmpty = true
    · right
      refine ⟨h2, ?_⟩
      rw [if_pos h2]
      cases hg : env.generateTransformCode payload
          (regenInstruction (if jsTruthyOptStr step0.loopSelector = true then step0
            else { step0 with loopSelector := some "$" }) payload) with
      | error e => exact Or.inl ⟨e, rfl, rfl⟩
      | ok mc =>
        dsimp only
        by_cases h3 : jsTruthyOptStr mc = true
        · rw [if_pos h3]
          exact Or.inr ⟨mc, rfl, Or.inl ⟨h3, rfl⟩⟩
        · rw [if_neg h3]
          exact Or.inr ⟨mc, rfl, Or.inr ⟨h3, rfl⟩⟩
    · left
      rw [if_neg h2]
      exact ⟨by simpa using h2, rfl⟩

/-- C5: both strategies are total: they always return a
`WorkflowStepResult` for the caller's step (never propagating a thrown
collaborator error), and whenever that result has `success = false` it
carries a nonempty descriptive error string (provided thrown selector
regeneration errors are nonempty, as every `Error.message` rendered by
the strategies is). -/
theorem claim_C5 (env : StratEnv) (step : ExecutionStep) (payload : Json)
    (options : RequestOptions)
    (hgen : ∀ p instr e', env.generateTransformCode p instr = .error e' → e' ≠ "") :
    ((directStrategyRun env step payload options).stepId = step.id ∧
      ((directStrategyRun env step payload options).success = false →
        ∃ e, (directStrategyRun env step payload options).error = some e ∧ e ≠ "")) ∧
    ((loopStrategyRun env step payload options).result.stepId = step.id ∧
      ((loopStrategyRun env step payload options).result.success = false →
        ∃ e, (loopStrategyRun env step payload options).result.error = some e ∧ e ≠ "")) := by
  constructor
  · unfold directStrategyRun
    cases env.executeApiCall 0 step.apiConfig payload options with
    | error e =>
      exact ⟨rfl, fun _ => ⟨_, rfl,
        append_ne_empty_left (append_ne_empty_left (append_ne_empty_left (by decide)))⟩⟩
    | ok v =>
      obtain ⟨data, ep⟩ := v
      dsimp only
      cases env.applyJsonata data step.responseMapping with
      | error e =>
        exact ⟨rfl, fun _ => ⟨_, rfl,
          append_ne_empty_left (append_ne_empty_left (append_ne_empty_left (by decide)))⟩⟩
      | ok td => exact ⟨rfl, fun h => by cases h⟩
  · rcases loopStrategyRun_eq env step payload options with
      ⟨-, heq⟩ | ⟨step1, sel, items0, -, -, -, -,
        ⟨-, heq⟩ | ⟨-, ⟨e, hg, heq⟩ | ⟨mc, hg, ⟨-, heq⟩ | ⟨-, heq⟩⟩⟩⟩
    · rw [heq]
      exact ⟨rfl, fun _ => ⟨_, rfl, by decide⟩⟩
    · rw [heq]
      exact finishLoop_catch env step.id _ payload options _ _
    · rw [heq]
      exact ⟨rfl, fun _ => ⟨e, rfl, hgen _ _ e hg⟩⟩
    · rw [heq]
      exact finishLoop_catch env step.id _ payload options _ _
    · rw [heq]
      exact finishLoop_catch env step.id _ payload options _ _

/-- C5 witness: a concrete failing run of both strategies (the executor
always throws, selector regeneration throws a nonempty message). -/
theorem claim_C5_witness :
    ((directStrategyRun
        ⟨fun _ _ _ _ => .error "boom", fun d _ => .ok d,
         fun _ _ _ => (false, Json.null), fun _ _ => .error "genfail"⟩
        { id := "s1" } (Json.arr [Json.num 1]) {}).stepId = "s1" ∧
      ((directStrategyRun
          ⟨fun _ _ _ _ => .error "boom", fun d _ => .ok d,
           fun _ _ _ => (false, Json.null), fun _ _ => .error "genfail"⟩
          { id := "s1" } (Json.arr [Json.num 1]) {}).success = false →
        ∃ e, (directStrategyRun
            ⟨fun _ _ _ _ => .error "boom", fun d _ => .ok d,
             fun _ _ _ => (false, Json.null), fun _ _ => .error "genfail"⟩
            { id := "s1" } (Json.arr [Json.num 1]) {}).error = some e ∧ e ≠ "")) ∧
    ((loopStrategyRun
        ⟨fun _ _ _ _ => .error "boom", fun d _ => .ok d,
         fun _ _ _ => (false, Json.null), fun _ _ => .error "genfail"⟩
        { id := "s1" } (Json.arr [Json.num 1]) {}).result.stepId = "s1" ∧
      ((loopStrategyRun
          ⟨fun _ _ _ _ => .error "boom", fun d _ => .ok d,
           fun _ _ _ => (false, Json.null), fun _ _ => .error "genfail"⟩
          { id := "s1" } (Json.arr [Json.num 1]) {}).result.success = false →
        ∃ e, (loopStrategyRun
            ⟨fun _ _ _ _ => .error "boom", fun d _ => .ok d,
             fun _ _ _ => (false, Json.null), fun _ _ => .error "genfail"⟩
            { id := "s1" } (Json.arr [Json.num 1]) {}).result.error = some e ∧ e ≠ "")) :=
  claim_C5
    ⟨fun _ _ _ _ => .error "boom", fun d _ => .ok d,
     fun _ _ _ => (false, Json.null), fun _ _ => .error "genfail"⟩
    { id := "s1" } (Json.arr [Json.num 1]) {}
    (by
      intro p instr e' h
      injection h with h1
      rw [← h1]
      decide)

/-- C6: when the executor fails on loop iteration `i` (after clean
successes before it) out of `n` extracted items, the loop aborts: the
result has `success = false`, carries no raw or transformed data at
all, its error is the aggregated message naming the 1-based index,
total count, and ≤50-character rendering of the failing item, and no
executor call is made for any iteration after `i`. -/
theorem claim_C6 (env : StratEnv) (step : ExecutionStep) (payload : Json)
    (options : RequestOptions) (i : Nat) (e : String)
    (hsel : jsTruthyOptStr step.loopSelector = true)
    (hok : ∀ j ep pl o, j < i → ∃ d ep', env.executeApiCall j ep pl o = .ok (d, ep'))
    (happ : ∀ d m, ∃ v, env.applyJsonata d m = .ok v)
    (herr : ∀ ep pl o, env.executeApiCall i ep pl o = .error e)
    (hi : i < (extractItems env 0 payload (step.loopSelector.getD "")).length)
    (hcap : (extractItems env 0 payload (step.loopSelector.getD "")).length ≤ loopCap step) :
    ∃ x, (extractItems env 0 payload (step.loopSelector.getD ""))[i]? = some x ∧
      (loopStrategyRun env step payload options).result.success = false ∧
      (loopStrategyRun env step payload options).result.rawData = none ∧
      (loopStrategyRun env step payload options).result.transformedData = none ∧
      (loopStrategyRun env step payload options).result.error =
        some (mkIterError i (extractItems env 0 payload (step.loopSelector.getD "")).length
          (normItem x) e) ∧
      ∀ j ep, StratEv.execCall j ep ∈ (loopStrategyRun env step payload options).trace →
        j ≤ i := by
  rcases loopStrategyRun_eq env step payload options with
    ⟨hc, -⟩ | ⟨step1, sel, items0, -, hstep1, hselq, hitems, hrest⟩
  · exact absurd hsel hc.1
  · rw [if_pos hsel] at hstep1
    subst hstep1
    subst hselq
    subst hitems
    rcases hrest with ⟨-, heq⟩ | ⟨hemp, -⟩
    · obtain ⟨x, accF, hx, hrun, htrF⟩ := runIterations_err env payload options
        (extractItems env 0 payload (step1.loopSelector.getD "")).length i e hok happ herr
        (extractItems env 0 payload (step1.loopSelector.getD "")) 0
        ⟨step1, none, [], [.extractCall 0 (step1.loopSelector.getD "")]⟩
        (Nat.zero_le i) (by omega) (by intro j ep hj; simp at hj)
      rw [Nat.sub_zero] at hx
      refine ⟨x, hx, ?_⟩
      rw [heq]
      unfold finishLoop
      dsimp only
      rw [List.take_of_length_le hcap, hrun]
      exact ⟨rfl, rfl, rfl, rfl, htrF⟩
    · rw [List.isEmpty_iff] at hemp
      rw [hemp] at hi
      simp at hi

/-- C6 witness: three extracted items, iteration 2 of 3 fails — the
result is the aggregated abort whose error text contains `2/3` and the
truncated failing item, with no data and no third executor call. -/
theorem claim_C6_witness :
    (∃ x, (extractItems
        ⟨fun j ep _ _ => if j = 0 then .ok (Json.num 7, ep) else .error "boom",
         fun d _ => .ok d, fun _ _ _ => (true, Json.arr [Json.num 1, Json.num 2, Json.num 3]),
         fun _ _ => .ok none⟩ 0 (Json.obj []) "items")[1]? = some x ∧
      (loopStrategyRun
          ⟨fun j ep _ _ => if j = 0 then .ok (Json.num 7, ep) else .error "boom",
           fun d _ => .ok d, fun _ _ _ => (true, Json.arr [Json.num 1, Json.num 2, Json.num 3]),
           fun _ _ => .ok none⟩
          { id := "s", loopSelector := some "items" } (Json.obj []) {}).result.success = false ∧
      (loopStrategyRun
          ⟨fun j ep _ _ => if j = 0 then .ok (Json.num 7, ep) else .error "boom",
           fun d _ => .ok d, fun _ _ _ => (true, Json.arr [Json.num 1, Json.num 2, Json.num 3]),
           fun _ _ => .ok none⟩
          { id := "s", loopSelector := some "items" } (Json.obj []) {}).result.rawData = none ∧
      (loopStrategyRun
          ⟨fun j ep _ _ => if j = 0 then .ok (Json.num 7, ep) else .error "boom",
           fun d _ => .ok d, fun _ _ _ => (true, Json.arr [Json.num 1, Json.num 2, Json.num 3]),
           fun _ _ => .ok none⟩
          { id := "s", loopSelector := some "items" } (Json.obj []) {}).result.transformedData
        = none ∧
      (loopStrategyRun
          ⟨fun j ep _ _ => if j = 0 then .ok (Json.num 7, ep) else .error "boom",
           fun d _ => .ok d, fun _ _ _ => (true, Json.arr [Json.num 1, Json.num 2, Json.num 3]),
           fun _ _ => .ok none⟩
          { id := "s", loopSelector := some "items" } (Json.obj []) {}).result.error =
        some (mkIterError 1 3 (normItem x) "boom") ∧
      ∀ j ep, StratEv.execCall j ep ∈ (loopStrategyRun
          ⟨fun j' ep' _ _ => if j' = 0 then .ok (Json.num 7, ep') else .error "boom",
           fun d _ => .ok d, fun _ _ _ => (true, Json.arr [Json.num 1, Json.num 2, Json.num 3]),
           fun _ _ => .ok none⟩
          { id := "s", loopSelector := some "items" } (Json.obj []) {}).trace → j ≤ 1) ∧
    (loopStrategyRun
        ⟨fun j ep _ _ => if j = 0 then .ok (Json.num 7, ep) else .error "boom",
         fun d _ => .ok d, fun _ _ _ => (true, Json.arr [Json.num 1, Json.num 2, Json.num 3]),
         fun _ _ => .ok none⟩
        { id := "s", loopSelector := some "items" } (Json.obj []) {}).result.error =
      some "Error processing item 2/3 \x272...\x27: boom" :=
  ⟨claim_C6
    ⟨fun j ep _ _ => if j = 0 then .ok (Json.num 7, ep) else .error "boom",
     fun d _ => .ok d, fun _ _ _ => (true, Json.arr [Json.num 1, Json.num 2, Json.num 3]),
     fun _ _ => .ok none⟩
    { id := "s", loopSelector := some "items" } (Json.obj []) {} 1 "boom"
    (by decide)
    (by
      intro j ep pl o hj
      exact ⟨Json.num 7, ep, by simp [Nat.lt_one_iff.1 hj]⟩)
    (fun d m => ⟨d, rfl⟩)
    (fun ep pl o => rfl)
    (by decide) (by decide),
   by decide⟩

/-- C7: with a present loop selector, when the first extraction yields
zero items, regeneration runs and — when it returns a mapping — the
extraction is retried exactly once: if the retry also yields zero
items, the loop runs zero iterations and the result is vacuously
successful (empty data arrays, empty error string), and the trace shows
exactly two extraction calls around one regeneration and nothing else
(in particular, no executor call and no second regeneration). -/
theorem claim_C7 (env : StratEnv) (step : ExecutionStep) (payload : Json)
    (options : RequestOptions) (code : String)
    (hsel : jsTruthyOptStr step.loopSelector = true)
    (hempty : extractItems env 0 payload (step.loopSelector.getD "") = [])
    (hcode : code ≠ "")
    (hgenok : env.generateTransformCode payload (regenInstruction step payload) = .ok (some code))
    (hretry : extractItems env 1 payload code = []) :
    (loopStrategyRun env step payload options).result.success = true ∧
    (loopStrategyRun env step payload options).result.rawData = some (Json.arr []) ∧
    (loopStrategyRun env step payload options).result.transformedData = some (Json.arr []) ∧
    (loopStrategyRun env step payload options).result.error = some "" ∧
    (loopStrategyRun env step payload options).trace =
      [.extractCall 0 (step.loopSelector.getD ""), .regenCall (regenInstruction step payload),
       .extractCall 1 code] := by
  rcases loopStrategyRun_eq env step payload options with
    ⟨hc, -⟩ | ⟨step1, sel, items0, -, hstep1, hselq, hitems, hrest⟩
  · exact absurd hsel hc.1
  · rw [if_pos hsel] at hstep1
    subst hstep1
    subst hselq
    subst hitems
    rcases hrest with ⟨hne, -⟩ | ⟨-, ⟨e, hg, -⟩ | ⟨mc, hg, ⟨-, heq⟩ | ⟨hmc, -⟩⟩⟩
    · rw [hempty] at hne
      simp at hne
    · rw [hgenok] at hg
      cases hg
    · rw [hgenok] at hg
      injection hg with h1
      subst h1
      rw [heq]
      unfold finishLoop
      dsimp only
      rw [show ((some code).getD "" : String) = code from rfl] at *
      rw [hretry]
      rw [List.take_nil]
      rw [runIterations]
      dsimp only
      refine ⟨rfl, rfl, rfl, rfl, ?_⟩
      simp
    · rw [hgenok] at hg
      injection hg with h1
      subst h1
      exact absurd (by simpa [jsTruthyOptStr] using hcode) hmc

/-- C7 witness: a concrete run in which both extractions yield zero
items. -/
theorem claim_C7_witness :
    (loopStrategyRun
        ⟨fun _ ep _ _ => .ok (Json.null, ep), fun d _ => .ok d,
         fun _ _ _ => (false, Json.null), fun _ _ => .ok (some "() => []")⟩
        { id := "s", loopSelector := some "items" } (Json.obj []) {}).result.success = true ∧
    (loopStrategyRun
        ⟨fun _ ep _ _ => .ok (Json.null, ep), fun d _ => .ok d,
         fun _ _ _ => (false, Json.null), fun _ _ => .ok (some "() => []")⟩
        { id := "s", loopSelector := some "items" } (Json.obj []) {}).result.rawData =
      some (Json.arr []) ∧
    (loopStrategyRun
        ⟨fun _ ep _ _ => .ok (Json.null, ep), fun d _ => .ok d,
         fun _ _ _ => (false, Json.null), fun _ _ => .ok (some "() => []")⟩
        { id := "s", loopSelector := some "items" } (Json.obj []) {}).result.transformedData =
      some (Json.arr []) ∧
    (loopStrategyRun
        ⟨fun _ ep _ _ => .ok (Json.null, ep), fun d _ => .ok d,
         fun _ _ _ => (false, Json.null), fun _ _ => .ok (some "() => []")⟩
        { id := "s", loopSelector := some "items" } (Json.obj []) {}).result.error = some "" ∧
    (loopStrategyRun
        ⟨fun _ ep _ _ => .ok (Json.null, ep), fun d _ => .ok d,
         fun _ _ _ => (false, Json.null), fun _ _ => .ok (some "() => []")⟩
        { id := "s", loopSelector := some "items" } (Json.obj []) {}).trace =
      [.extractCall 0 "items",
       .regenCall (regenInstruction { id := "s", loopSelector := some "items" } (Json.obj [])),
       .extractCall 1 "() => []"] :=
  claim_C7
    ⟨fun _ ep _ _ => .ok (Json.null, ep), fun d _ => .ok d,
     fun _ _ _ => (false, Json.null), fun _ _ => .ok (some "() => []")⟩
    { id := "s", loopSelector := some "items" } (Json.obj []) {} "() => []"
    (by decide) (by decide) (by decide) rfl (by decide)

/-- The iteration tail keeps every step field except `apiConfig`, which
moves only to a successfully returned endpoint; the input trace is
preserved. -/
theorem finishLoop_frame (env : StratEnv) (origId : String) (st : ExecutionStep)
    (payload : Json) (options : RequestOptions) (items : List Json) (tr : List StratEv) :
    (finishLoop env origId st payload options items tr).finalStep.id = st.id ∧
    (finishLoop env origId st payload options items tr).finalStep.executionMode
      = st.executionMode ∧
    (finishLoop env origId st payload options items tr).finalStep.loopMaxIters
      = st.loopMaxIters ∧
    (finishLoop env origId st payload options items tr).finalStep.responseMapping
      = st.responseMapping ∧
    (finishLoop env origId st payload options items tr).finalStep.loopSelector
      = st.loopSelector ∧
    (∀ e ∈ tr, e ∈ (finishLoop env origId st payload options items tr).trace) ∧
    ((finishLoop env origId st payload options items tr).finalStep.apiConfig = st.apiConfig ∨
      ∃ i ep, StratEv.execOk i ep ∈ (finishLoop env origId st payload options items tr).trace ∧
        (finishLoop env origId st payload options items tr).finalStep.apiConfig = ep) := by
  obtain ⟨h1, h2, h3, h4, h5, hmono, hcfg⟩ := runIterations_frame env payload options
    (items.take (loopCap st)).length (items.take (loopCap st)) 0
    ⟨st, none, [], tr⟩
  unfold finishLoop
  dsimp only
  cases hrun : runIterations env payload options (items.take (loopCap st)).length
      (items.take (loopCap st)) 0 ⟨st, none, [], tr⟩ with
  | error v =>
    obtain ⟨msg, accF⟩ := v
    rw [hrun] at h1 h2 h3 h4 h5 hmono hcfg
    exact ⟨h1, h2, h3, h4, h5, hmono, hcfg⟩
  | ok acc =>
    rw [hrun] at h1 h2 h3 h4 h5 hmono hcfg
    exact ⟨h1, h2, h3, h4, h5, hmono, hcfg⟩

/-- C8 (amended): during execution the loop strategy mutates the
caller's step object in exactly two ways: `apiConfig` is replaced only
by the endpoint of a successful executor call (the healed config), and
`loopSelector` is replaced only by the identity selector `"$"` (when it
was missing and the payload is an array) or by a regenerated mapping
returned by the selector synthesizer; `id`, `executionMode`,
`loopMaxIters` and `responseMapping` are never modified.  (The direct
strategy's embedding takes the step by value and performs no step
mutation at all.) -/
theorem claim_C8 (env : StratEnv) (step : ExecutionStep) (payload : Json)
    (options : RequestOptions) :
    (loopStrategyRun env step payload options).finalStep.id = step.id ∧
    (loopStrategyRun env step payload options).finalStep.executionMode = step.executionMode ∧
    (loopStrategyRun env step payload options).finalStep.loopMaxIters = step.loopMaxIters ∧
    (loopStrategyRun env step payload options).finalStep.responseMapping
      = step.responseMapping ∧
    ((loopStrategyRun env step payload options).finalStep.apiConfig = step.apiConfig ∨
      ∃ i ep, StratEv.execOk i ep ∈ (loopStrategyRun env step payload options).trace ∧
        (loopStrategyRun env step payload options).finalStep.apiConfig = ep) ∧
    ((loopStrategyRun env step payload options).finalStep.loopSelector = step.loopSelector ∨
      (loopStrategyRun env step payload options).finalStep.loopSelector = some "$" ∨
      ∃ instr code,
        StratEv.regenCall instr ∈ (loopStrategyRun env step payload options).trace ∧
        env.generateTransformCode payload instr = .ok (some code) ∧
        (loopStrategyRun env step payload options).finalStep.loopSelector = some code) := by
  have hstep1 : ∀ s1 : ExecutionStep,
      s1 = (if jsTruthyOptStr step.loopSelector = true then step
        else { step with loopSelector := some "$" }) →
      s1.id = step.id ∧ s1.executionMode = step.executionMode ∧
      s1.loopMaxIters = step.loopMaxIters ∧ s1.responseMapping = step.responseMapping ∧
      s1.apiConfig = step.apiConfig ∧
      (s1.loopSelector = step.loopSelector ∨ s1.loopSelector = some "$") := by
    intro s1 h
    by_cases ht : jsTruthyOptStr step.loopSelector = true
    · rw [if_pos ht] at h
      subst h
      exact ⟨rfl, rfl, rfl, rfl, rfl, Or.inl rfl⟩
    · rw [if_neg ht] at h
      subst h
      exact ⟨rfl, rfl, rfl, rfl, rfl, Or.inr rfl⟩
  rcases loopStrategyRun_eq env step payload options with
    ⟨-, heq⟩ | ⟨step1, sel, items0, -, h1eq, -, -,
      ⟨-, heq⟩ | ⟨-, ⟨e, -, heq⟩ | ⟨mc, hg, ⟨hmc, heq⟩ | ⟨-, heq⟩⟩⟩⟩
  · rw [heq]
    exact ⟨rfl, rfl, rfl, rfl, Or.inl rfl, Or.inl rfl⟩
  · obtain ⟨i1, i2, i3, i4, i5, i6⟩ := hstep1 step1 h1eq
    obtain ⟨f1, f2, f3, f4, f5, -, fcfg⟩ :=
      finishLoop_frame env step.id step1 payload options items0 [.extractCall 0 sel]
    rw [heq]
    refine ⟨f1.trans i1, f2.trans i2, f3.trans i3, f4.trans i4, ?_, ?_⟩
    · rcases fcfg with fcfg | ⟨i, ep, hmem, fcfg⟩
      · exact Or.inl (fcfg.trans i5)
      · exact Or.inr ⟨i, ep, hmem, fcfg⟩
    · rcases i6 with i6 | i6
      · exact Or.inl (f5.trans i6)
      · exact Or.inr (Or.inl (f5.trans i6))
  · obtain ⟨i1, i2, i3, i4, i5, i6⟩ := hstep1 step1 h1eq
    rw [heq]
    refine ⟨i1, i2, i3, i4, Or.inl i5, ?_⟩
    rcases i6 with i6 | i6
    · exact Or.inl i6
    · exact Or.inr (Or.inl i6)
  · obtain ⟨i1, i2, i3, i4, i5, -⟩ := hstep1 step1 h1eq
    obtain ⟨code, rfl⟩ : ∃ code, mc = some code := by
      cases mc with
      | none => cases hmc
      | some s => exact ⟨s, rfl⟩
    obtain ⟨f1, f2, f3, f4, f5, fmono, fcfg⟩ :=
      finishLoop_frame env step.id { step1 with loopSelector := some code } payload options
        (extractItems env 1 payload ((some code).getD ""))
        ([.extractCall 0 sel] ++ [.regenCall (regenInstruction step1 payload)]
          ++ [.extractCall 1 ((some code).getD "")])
    rw [heq]
    refine ⟨f1.trans i1, f2.trans i2, f3.trans i3, f4.trans i4, ?_, ?_⟩
    · rcases fcfg with fcfg | ⟨i, ep, hmem, fcfg⟩
      · exact Or.inl (fcfg.trans i5)
      · exact Or.inr ⟨i, ep, hmem, fcfg⟩
    · refine Or.inr (Or.inr ⟨regenInstruction step1 payload, code, ?_, hg, f5⟩)
      exact fmono _ (by simp)
  · obtain ⟨i1, i2, i3, i4, i5, i6⟩ := hstep1 step1 h1eq
    obtain ⟨f1, f2, f3, f4, f5, -, fcfg⟩ :=
      finishLoop_frame env step.id step1 payload options []
        ([.extractCall 0 sel] ++ [.regenCall (regenInstruction step1 payload)])
    rw [heq]
    refine ⟨f1.trans i1, f2.trans i2, f3.trans i3, f4.trans i4, ?_, ?_⟩
    · rcases fcfg with fcfg | ⟨i, ep, hmem, fcfg⟩
      · exact Or.inl (fcfg.trans i5)
      · exact Or.inr ⟨i, ep, hmem, fcfg⟩
    · rcases i6 with i6 | i6
      · exact Or.inl (f5.trans i6)
      · exact Or.inr (Or.inl (f5.trans i6))

set_option maxRecDepth 10000 in
/-- C8 counterexample: a loop run with no selector and an array payload
in which no executor call ever succeeds (indeed none is made): the
step's `loopSelector` is still mutated in place (to `"$"`), while its
`apiConfig` is untouched — so the step is mutated even though no healed
config was learned, contrary to the claim. -/
theorem claim_C8_counterexample :
    (loopStrategyRun
        ⟨fun _ ep _ _ => .ok (Json.null, ep), fun d _ => .ok d,
         fun _ _ _ => (false, Json.null), fun _ _ => .ok none⟩
        { id := "s", executionMode := "LOOP" } (Json.arr []) {}).finalStep.loopSelector ≠
      ({ id := "s", executionMode := "LOOP" } : ExecutionStep).loopSelector ∧
    (loopStrategyRun
        ⟨fun _ ep _ _ => .ok (Json.null, ep), fun d _ => .ok d,
         fun _ _ _ => (false, Json.null), fun _ _ => .ok none⟩
        { id := "s", executionMode := "LOOP" } (Json.arr []) {}).finalStep.apiConfig =
      ({ id := "s", executionMode := "LOOP" } : ExecutionStep).apiConfig ∧
    ((loopStrategyRun
        ⟨fun _ ep _ _ => .ok (Json.null, ep), fun d _ => .ok d,
         fun _ _ _ => (false, Json.null), fun _ _ => .ok none⟩
        { id := "s", executionMode := "LOOP" } (Json.arr []) {}).trace.all
      (fun ev => match ev with
        | StratEv.execOk _ _ => false
        | _ => true)) = true := by
  decide

/-- Failure handling of the orchestrator's `catch` block. -/
theorem resolverCatch_spec (callId : String) (credentials : List (String × String))
    (options : RequestOptions) (endpointVar : Option ApiConfig) (rawMsg : String)
    (hurl : jsTruthyOptStr options.webhookUrl = true) :
    (resolverCatch callId credentials options endpointVar rawMsg).result.error =
      some (maskCredentials rawMsg credentials) ∧
    (resolverCatch callId credentials options endpointVar rawMsg).runs =
      [(resolverCatch callId credentials options endpointVar rawMsg).result] ∧
    (resolverCatch callId credentials options endpointVar rawMsg).webhooks =
      [⟨options.webhookUrl.getD "", callId, false, none, some rawMsg⟩] := by
  unfold resolverCatch
  rw [if_pos hurl]
  exact ⟨rfl, rfl, rfl⟩

/-- The orchestrator either went through its `catch` block with some
raw error message, or returned success. -/
theorem callResolverRun_cases (env : ResolverEnv) (callId : String) (input : ApiInputRequest)
    (credentials : List (String × String)) (options : RequestOptions) :
    (∃ raw endpointVar, callResolverRun env callId input credentials options =
        resolverCatch callId credentials options endpointVar raw) ∨
    (callResolverRun env callId input credentials options).result.success = true := by
  unfold callResolverRun
  dsimp only
  by_cases hz : isZodSchema ((if jsTruthyOptStr input.id = true then
      env.getApiConfig (input.id.getD "") else input.endpoint).bind
        (fun e => e.responseSchema)) = true
  · rw [if_pos hz]
    exact Or.inl ⟨zodNotSupportedMsg, _, rfl⟩
  · rw [if_neg hz]
    cases hexec : (executeApiCall env.exec
        ((if jsTruthyOptStr input.id = true then env.getApiConfig (input.id.getD "")
          else input.endpoint).getD {}) credentials options none).outcome with
    | err e => exact Or.inl ⟨e, _, rfl⟩
    | ok data ep =>
      dsimp only
      cases htf : env.executeTransform (cacheRead options) ep data with
      | error e => exact Or.inl ⟨e, _, rfl⟩
      | ok v =>
        obtain ⟨tdata, overlay⟩ := v
        exact Or.inr rfl

/-- C10: whenever the orchestrator's execution fails (and a webhook URL
is configured), the persisted run record and the returned result carry
the credential-masked error string, while the webhook notification
carries the raw, unmasked message. -/
theorem claim_C10 (env : ResolverEnv) (callId : String) (input : ApiInputRequest)
    (credentials : List (String × String)) (options : RequestOptions)
    (hfail : (callResolverRun env callId input credentials options).result.success = false)
    (hurl : jsTruthyOptStr options.webhookUrl = true) :
    ∃ raw,
      (callResolverRun env callId input credentials options).result.error =
        some (maskCredentials raw credentials) ∧
      (callResolverRun env callId input credentials options).runs =
        [(callResolverRun env callId input credentials options).result] ∧
      (callResolverRun env callId input credentials options).webhooks =
        [⟨options.webhookUrl.getD "", callId, false, none, some raw⟩] := by
  rcases callResolverRun_cases env callId input credentials options with
    ⟨raw, endpointVar, heq⟩ | hok
  · rw [heq]
    exact ⟨raw, resolverCatch_spec callId credentials options endpointVar raw hurl⟩
  · rw [hok] at hfail
    cases hfail

set_option maxRecDepth 4000 in
/-- C10 witness: a concrete failing call (an inline config whose
response schema is a zod object is rejected up front) with a webhook
configured; the persisted/returned error is masked while the webhook
receives the raw message. -/
theorem claim_C10_witness :
    ∃ raw,
      (callResolverRun
          ⟨⟨fun _ _ ep ms => (ep, ms), fun _ _ => .ok Json.null, fun _ _ => (true, "")⟩,
           fun _ => none, fun _ _ _ => .error "transform blew up"⟩
          "run-1"
          { endpoint := some { responseSchema := some (Json.obj [("_def",
              Json.obj [("typeName", Json.str "ZodObject")])]) } }
          [("apiKey", "secret123")] { webhookUrl := some "https://hook" }).result.error =
        some (maskCredentials raw [("apiKey", "secret123")]) ∧
      (callResolverRun
          ⟨⟨fun _ _ ep ms => (ep, ms), fun _ _ => .ok Json.null, fun _ _ => (true, "")⟩,
           fun _ => none, fun _ _ _ => .error "transform blew up"⟩
          "run-1"
          { endpoint := some { responseSchema := some (Json.obj [("_def",
              Json.obj [("typeName", Json.str "ZodObject")])]) } }
          [("apiKey", "secret123")] { webhookUrl := some "https://hook" }).runs =
        [(callResolverRun
          ⟨⟨fun _ _ ep ms => (ep, ms), fun _ _ => .ok Json.null, fun _ _ => (true, "")⟩,
           fun _ => none, fun _ _ _ => .error "transform blew up"⟩
          "run-1"
          { endpoint := some { responseSchema := some (Json.obj [("_def",
              Json.obj [("typeName", Json.str "ZodObject")])]) } }
          [("apiKey", "secret123")] { webhookUrl := some "https://hook" }).result] ∧
      (callResolverRun
          ⟨⟨fun _ _ ep ms => (ep, ms), fun _ _ => .ok Json.null, fun _ _ => (true, "")⟩,
           fun _ => none, fun _ _ _ => .error "transform blew up"⟩
          "run-1"
          { endpoint := some { responseSchema := some (Json.obj [("_def",
              Json.obj [("typeName", Json.str "ZodObject")])]) } }
          [("apiKey", "secret123")] { webhookUrl := some "https://hook" }).webhooks =
        [⟨"https://hook", "run-1", false, none, some raw⟩] :=
  claim_C10
    ⟨⟨fun _ _ ep ms => (ep, ms), fun _ _ => .ok Json.null, fun _ _ => (true, "")⟩,
     fun _ => none, fun _ _ _ => .error "transform blew up"⟩
    "run-1"
    { endpoint := some { responseSchema := some (Json.obj [("_def",
        Json.obj [("typeName", Json.str "ZodObject")])]) } }
    [("apiKey", "secret123")] { webhookUrl := some "https://hook" }
    (by decide) (by decide)

end Superglue
